import Mathlib

/-!
# Stutter core builtins and IR lowering

A shallow embedding of `src/core.c` and `src/ir.c` of the stutter Lisp
runtime (value model, comparison, accumulation, list builtins, `map` and
`apply`, rendering, lowering of the syntax tree), with the properties of its
specification stated and proved over the embedding.

Modelling conventions
* A `Value *` that may be `NULL` is an `Option Value`; `none` is `NULL`.
* The persistent list of `list.h` is a Lean `List`; `list_head`, `list_tail`,
  `list_size`, `list_nth`, `list_conj` are the corresponding list operations.
* The canonical `VALUE_CONST_TRUE` / `VALUE_CONST_FALSE` / `VALUE_CONST_NIL`
  singletons are `Value.bool true` / `Value.bool false` / `Value.nil`; the
  pointer test `r == VALUE_CONST_TRUE` is a match on `Value.bool true`, since
  the comparison functions only ever return one of the two singletons or a
  freshly made error.
* Floating-point data are exact binary fractions (`CFloat`).  The C type
  `float` is IEEE-754 binary32 with round-to-nearest-even: every conversion
  to `float` and every `float` operation of the source rounds to binary32.
  The declaration of the `float_` field of `Value` (`value.h`) is not among
  the sources; a `CFloat` can hold a `float` as well as a `double`, and the
  conversions to `float` that the source performs on the field are kept, so
  the embedding does not depend on the width of the field.  `int` is 32 bits
  wide.
* C strings are lists of bytes without the terminating NUL.
* `LOG_CRITICAL` only writes to the log and is not modelled.
* A text under construction is the list of its bytes; the C library
  conversions `%d`, `%f` and `%s` are `fmt_d`, `fmt_f` and the bytes
  themselves.
* A call that dereferences a null pointer is the outcome `Outcome.fault`.
* The values that lowering builds carry their `loc` field (`LocValue`); the
  builtins never read it, and `Value` is without it.
-/

namespace Stutter

/-! ## Floating point -/

/-- A floating-point datum: `fin s m e` is `(-1)^s * m * 2^e`, `inf s` a
signed infinity, `nan` a NaN.  The binary32 data are the infinities, NaN and
the `fin s m e` with `m < 2^24` and `-149 ≤ e ≤ 104`; the operations below
produce them with `2^23 ≤ m` or `e = -149`. -/
inductive CFloat where
  | fin (s : Bool) (m : Nat) (e : Int)
  | inf (s : Bool)
  | nan
  deriving DecidableEq, Repr

namespace CFloat

/-- The loop of `log2`: `fuel` bounds the number of halvings. -/
def log2_loop : Nat → Nat → Nat
  | 0, _ => 0
  | fuel + 1, n => if n < 2 then 0 else log2_loop fuel (n / 2) + 1

/-- The position of the leading bit: `floor (log2 n)` for `n > 0`, and 0 for 0. -/
def log2 (n : Nat) : Nat := log2_loop n n

/-- The binary32 value of sign `s` with the rounded significand `q ≤ 2^24`
at exponent `t`: a significand carried out to `2^24` is renormalised, and an
exponent above 104 overflows to infinity. -/
def pack (s : Bool) (q : Nat) (t : Int) : CFloat :=
  if q = 2 ^ 24 then (if 104 < t + 1 then .inf s else .fin s (2 ^ 23) (t + 1))
  else if 104 < t then .inf s else .fin s q t

/-- Round the exact magnitude `n / d * 2^e` (with `d > 0`) to the nearest
binary32 value of sign `s`, ties to even, overflowing to infinity. -/
def round (s : Bool) (n d : Nat) (e : Int) : CFloat :=
  if n = 0 then .fin s 0 (-149) else
  let l : Int := (log2 n : Int) - (log2 d : Int)
  let ge : Bool :=
    if 0 ≤ l then decide (d * 2 ^ l.toNat ≤ n) else decide (d ≤ n * 2 ^ (-l).toNat)
  let fl : Int := if ge then l + e else l + e - 1
  let t : Int := max (fl - 23) (-149)
  let sh : Int := e - t
  let num : Nat := if 0 ≤ sh then n * 2 ^ sh.toNat else n
  let den : Nat := if 0 ≤ sh then d else d * 2 ^ (-sh).toNat
  let q := num / den
  let r := num % den
  let q1 := if den < 2 * r ∨ (2 * r = den ∧ q % 2 = 1) then q + 1 else q
  pack s q1 t

/-- The conversion `(float) i` of a C `int`. -/
def ofInt (i : Int) : CFloat := round (decide (i < 0)) i.natAbs 1 0

/-- The conversion of a floating-point datum to `float`, as on assignment to
a `float` variable or parameter: it leaves a binary32 datum as it is. -/
def cast : CFloat → CFloat
  | .fin s m e => round s m 1 e
  | x => x

/-- The signed integer `± m * 2^(e - k)`: a finite value scaled to the
exponent `k ≤ e`. -/
def scaled (s : Bool) (m : Nat) (e k : Int) : Int :=
  if s then -((m * 2 ^ (e - k).toNat : Nat) : Int) else ((m * 2 ^ (e - k).toNat : Nat) : Int)

/-- The C operator `==` on floats. -/
def eq : CFloat → CFloat → Bool
  | .nan, _ => false
  | _, .nan => false
  | .inf s, .inf t => s == t
  | .inf _, .fin _ _ _ => false
  | .fin _ _ _, .inf _ => false
  | .fin s m e, .fin t n f => scaled s m e (min e f) == scaled t n f (min e f)

/-- The C operator `<` on floats. -/
def lt : CFloat → CFloat → Bool
  | .nan, _ => false
  | _, .nan => false
  | .inf s, .inf t => s && !t
  | .inf s, .fin _ _ _ => s
  | .fin _ _ _, .inf t => !t
  | .fin s m e, .fin t n f => decide (scaled s m e (min e f) < scaled t n f (min e f))

/-- The C operator `<=` on floats. -/
def le : CFloat → CFloat → Bool
  | .nan, _ => false
  | _, .nan => false
  | .inf s, .inf t => s || !t
  | .inf s, .fin _ _ _ => s
  | .fin _ _ _, .inf t => !t
  | .fin s m e, .fin t n f => decide (scaled s m e (min e f) ≤ scaled t n f (min e f))

/-- The C operator `>` on floats. -/
def gt (a b : CFloat) : Bool := lt b a

/-- The C operator `>=` on floats. -/
def ge (a b : CFloat) : Bool := le b a

/-- Unary minus. -/
def neg : CFloat → CFloat
  | .nan => .nan
  | .inf s => .inf (!s)
  | .fin s m e => .fin (!s) m e

/-- The C operator `+` on two `float`s. -/
def add : CFloat → CFloat → CFloat
  | .nan, _ => .nan
  | _, .nan => .nan
  | .inf s, .inf t => if s = t then .inf s else .nan
  | .inf s, .fin _ _ _ => .inf s
  | .fin _ _ _, .inf t => .inf t
  | .fin s m e, .fin t n f =>
    let v : Int := scaled s m e (min e f) + scaled t n f (min e f)
    if v = 0 then .fin (s && t) 0 (-149)
    else round (decide (v < 0)) v.natAbs 1 (min e f)

/-- The C operator `-` on two `float`s. -/
def sub (a b : CFloat) : CFloat := add a (neg b)

/-- The C operator `*` on two `float`s. -/
def mul : CFloat → CFloat → CFloat
  | .nan, _ => .nan
  | _, .nan => .nan
  | .inf s, .inf t => .inf (xor s t)
  | .inf s, .fin t n _ => if n = 0 then .nan else .inf (xor s t)
  | .fin s m _, .inf t => if m = 0 then .nan else .inf (xor s t)
  | .fin s m e, .fin t n f => round (xor s t) (m * n) 1 (e + f)

/-- The C operator `/` on two `float`s. -/
def div : CFloat → CFloat → CFloat
  | .nan, _ => .nan
  | _, .nan => .nan
  | .inf _, .inf _ => .nan
  | .inf s, .fin t _ _ => .inf (xor s t)
  | .fin s _ _, .inf t => .fin (xor s t) 0 (-149)
  | .fin s m e, .fin t n f =>
    if n = 0 then (if m = 0 then .nan else .inf (xor s t))
    else round (xor s t) m n (e - f)

/-- The conversion `(int) x` of a `float`: truncation toward zero.  The C
standard leaves the conversion undefined when the truncated value does not
fit an `int` (and for infinities and NaN); there it yields `INT_MIN`, as the
x86-64 conversion instruction does. -/
def toInt : CFloat → Int
  | .fin s m e =>
    let mag : Nat := if 0 ≤ e then m * 2 ^ e.toNat else m / 2 ^ (-e).toNat
    let v : Int := if s then -(mag : Int) else (mag : Int)
    if -2147483648 ≤ v ∧ v ≤ 2147483647 then v else -2147483648
  | _ => -2147483648

end CFloat

/-! ## Values -/

/-- The tagged value of `value.h`.  Strings and symbols hold their bytes;
`builtin_fn` holds the address of the native function, `fn` and `macro_fn`
the address of the composite function record, which is all `core.c` compares. -/
inductive Value where
  | nil
  | bool (b : Bool)
  | int (i : Int)
  | float (f : CFloat)
  | string (s : List Nat)
  | symbol (s : List Nat)
  | error (msg : String)
  | list (l : List Value)
  | builtin_fn (p : Nat)
  | fn (p : Nat)
  | macro_fn (p : Nat)
  deriving Repr

/-- The singleton `VALUE_CONST_TRUE`. -/
abbrev VALUE_CONST_TRUE : Value := .bool true

/-- The singleton `VALUE_CONST_FALSE`. -/
abbrev VALUE_CONST_FALSE : Value := .bool false

/-- The singleton `VALUE_CONST_NIL`. -/
abbrev VALUE_CONST_NIL : Value := .nil

/-- The constructor `value_make_error` applied to an already formatted message. -/
def value_make_error (msg : String) : Value := .error msg

/-- The helper `is_error` of `value.h`. -/
def is_error : Value → Bool
  | .error _ => true
  | _ => false

/-- The helper `is_list` of `value.h`. -/
def is_list : Value → Bool
  | .list _ => true
  | _ => false

/-- The C library `strcmp` on the bytes of two strings: the difference of the
first pair of differing bytes, the terminator counting as byte 0. -/
def strcmp : List Nat → List Nat → Int
  | [], [] => 0
  | [], b :: _ => 0 - (b : Int)
  | a :: _, [] => (a : Int)
  | a :: as, b :: bs =>
    if a ≠ b then (a : Int) - (b : Int) else if a = 0 then 0 else strcmp as bs

/-- The two-way conditional `c ? VALUE_CONST_TRUE : VALUE_CONST_FALSE`. -/
def truth (c : Bool) : Value := if c then VALUE_CONST_TRUE else VALUE_CONST_FALSE

mutual
/-- Pairwise equality `cmp_eq` of `core.c`. -/
def cmp_eq : Value → Value → Value
  | .nil, .nil => VALUE_CONST_TRUE
  | .error _, .error _ => value_make_error "Comparison of error values is not supported"
  | .bool a, .bool b => truth (a == b)
  | .int a, .int b => truth (decide (a = b))
  | .float a, .float b => truth (CFloat.eq a b)
  | .string a, .string b => truth (decide (strcmp a b = 0))
  | .symbol a, .symbol b => truth (decide (strcmp a b = 0))
  | .builtin_fn a, .builtin_fn b => truth (decide (a = b))
  | .fn a, .fn b => truth (decide (a = b))
  | .macro_fn a, .macro_fn b => truth (decide (a = b))
  | .list a, .list b =>
    if a.length = b.length then
      if a.length = 0 then VALUE_CONST_TRUE else cmp_eq_loop a b
    else VALUE_CONST_FALSE
  | .int a, .float b => truth (CFloat.eq (CFloat.ofInt a) b)
  | .float a, .int b => truth (CFloat.eq (CFloat.ofInt b) a)
  | _, _ => value_make_error "Cannot compare incompatible types"
/-- The element loop of the list case of `cmp_eq`: it runs while both lists
have a head and returns the first result that is not `VALUE_CONST_TRUE`. -/
def cmp_eq_loop : List Value → List Value → Value
  | a :: as, b :: bs =>
    match cmp_eq a b with
    | .bool true => cmp_eq_loop as bs
    | r => r
  | _, _ => VALUE_CONST_TRUE
end

/-- Pairwise ordering `cmp_lt` of `core.c`. -/
def cmp_lt : Value → Value → Value
  | .nil, .nil => value_make_error "Cannot order NIL values"
  | .error _, .error _ => value_make_error "Cannot order ERROR values"
  | .bool _, .bool _ => value_make_error "Cannot order BOOLEAN values"
  | .int a, .int b => truth (decide (a < b))
  | .float a, .float b => truth (CFloat.lt a b)
  | .string a, .string b => truth (decide (strcmp a b < 0))
  | .symbol a, .symbol b => truth (decide (strcmp a b < 0))
  | .builtin_fn _, .builtin_fn _ => value_make_error "Cannot order functions"
  | .fn _, .fn _ => value_make_error "Cannot order functions"
  | .macro_fn _, .macro_fn _ => value_make_error "Cannot order functions"
  | .list _, .list _ => value_make_error "Cannot order lists"
  | .int a, .float b => truth (CFloat.lt (CFloat.ofInt a) b)
  | .float a, .int b => truth (CFloat.lt a (CFloat.ofInt b))
  | _, _ => value_make_error "Cannot compare incompatible types"

/-- Pairwise ordering `cmp_leq` of `core.c`. -/
def cmp_leq : Value → Value → Value
  | .nil, .nil => value_make_error "Cannot order NIL values"
  | .error _, .error _ => value_make_error "Cannot order ERROR values"
  | .bool _, .bool _ => value_make_error "Cannot order BOOLEAN values"
  | .int a, .int b => truth (decide (a ≤ b))
  | .float a, .float b => truth (CFloat.le a b)
  | .string a, .string b => truth (decide (strcmp a b ≤ 0))
  | .symbol a, .symbol b => truth (decide (strcmp a b ≤ 0))
  | .builtin_fn _, .builtin_fn _ => value_make_error "Cannot order functions"
  | .fn _, .fn _ => value_make_error "Cannot order functions"
  | .macro_fn _, .macro_fn _ => value_make_error "Cannot order functions"
  | .list _, .list _ => value_make_error "Cannot order lists"
  | .int a, .float b => truth (CFloat.le (CFloat.ofInt a) b)
  | .float a, .int b => truth (CFloat.le a (CFloat.ofInt b))
  | _, _ => value_make_error "Cannot compare incompatible types"

/-- Pairwise ordering `cmp_gt` of `core.c`. -/
def cmp_gt : Value → Value → Value
  | .nil, .nil => value_make_error "Cannot order NIL values"
  | .error _, .error _ => value_make_error "Cannot order ERROR values"
  | .bool _, .bool _ => value_make_error "Cannot order BOOLEAN values"
  | .int a, .int b => truth (decide (a > b))
  | .float a, .float b => truth (CFloat.gt a b)
  | .string a, .string b => truth (decide (strcmp a b > 0))
  | .symbol a, .symbol b => truth (decide (strcmp a b > 0))
  | .builtin_fn _, .builtin_fn _ => value_make_error "Cannot order functions"
  | .fn _, .fn _ => value_make_error "Cannot order functions"
  | .macro_fn _, .macro_fn _ => value_make_error "Cannot order functions"
  | .list _, .list _ => value_make_error "Cannot order lists"
  | .int a, .float b => truth (CFloat.gt (CFloat.ofInt a) b)
  | .float a, .int b => truth (CFloat.gt a (CFloat.ofInt b))
  | _, _ => value_make_error "Cannot compare incompatible types"

/-- Pairwise ordering `cmp_geq` of `core.c`. -/
def cmp_geq : Value → Value → Value
  | .nil, .nil => value_make_error "Cannot order NIL values"
  | .error _, .error _ => value_make_error "Cannot order ERROR values"
  | .bool _, .bool _ => value_make_error "Cannot order BOOLEAN values"
  | .int a, .int b => truth (decide (a ≥ b))
  | .float a, .float b => truth (CFloat.ge a b)
  | .string a, .string b => truth (decide (strcmp a b ≥ 0))
  | .symbol a, .symbol b => truth (decide (strcmp a b ≥ 0))
  | .builtin_fn _, .builtin_fn _ => value_make_error "Cannot order functions"
  | .fn _, .fn _ => value_make_error "Cannot order functions"
  | .macro_fn _, .macro_fn _ => value_make_error "Cannot order functions"
  | .list _, .list _ => value_make_error "Cannot order lists"
  | .int a, .float b => truth (CFloat.ge (CFloat.ofInt a) b)
  | .float a, .int b => truth (CFloat.ge a (CFloat.ofInt b))
  | _, _ => value_make_error "Cannot compare incompatible types"

/-! ## Argument validation -/

/-- The macro `CHECK_ARGLIST`: the elements of the argument container, or
`none` when the macro makes the builtin return `NULL` (the container is
`NULL` or not a list). -/
def CHECK_ARGLIST : Option Value → Option (List Value)
  | some (.list l) => some l
  | _ => none

/-- The macro `REQUIRE_LIST_CARDINALITY_GE`: the error the builtin returns
early, if any. -/
def REQUIRE_LIST_CARDINALITY_GE (l : List Value) (n : Nat) (msg : String) : Option Value :=
  if l.length < n then
    some (value_make_error
      (msg ++ ": expected at least " ++ toString n ++ ", got " ++ toString l.length))
  else none

/-! ## Comparison chains -/

/-- The loop of `compare`: `prev` is the previous element (`NULL` before the
first), the list is what remains to be visited. -/
def compare_loop (comparison_fn : Value → Value → Value) : Option Value → List Value → Value
  | _, [] => VALUE_CONST_TRUE
  | none, head :: tail => compare_loop comparison_fn (some head) tail
  | some prev, head :: tail =>
    match comparison_fn prev head with
    | .bool true => compare_loop comparison_fn (some head) tail
    | r => r

/-- The chained comparison `compare` of `core.c`. -/
def compare (args : Option Value) (comparison_fn : Value → Value → Value) : Option Value :=
  match CHECK_ARGLIST args with
  | none => none
  | some list =>
    match REQUIRE_LIST_CARDINALITY_GE list 2 "Require at least two values to compare" with
    | some err => some err
    | none => some (compare_loop comparison_fn none list)

/-- The builtin `=`. -/
def core_eq (args : Option Value) : Option Value := compare args cmp_eq

/-- The builtin `<`. -/
def core_lt (args : Option Value) : Option Value := compare args cmp_lt

/-- The builtin `<=`. -/
def core_leq (args : Option Value) : Option Value := compare args cmp_leq

/-- The builtin `>`. -/
def core_gt (args : Option Value) : Option Value := compare args cmp_gt

/-- The builtin `>=`. -/
def core_geq (args : Option Value) : Option Value := compare args cmp_geq

/-! ## Accumulation -/

/-- The accumulator `acc_add`. -/
def acc_add (acc x : CFloat) : CFloat := CFloat.add acc x

/-- The accumulator `acc_sub`. -/
def acc_sub (acc x : CFloat) : CFloat := CFloat.sub acc x

/-- The accumulator `acc_mul`. -/
def acc_mul (acc x : CFloat) : CFloat := CFloat.mul acc x

/-- The accumulator `acc_div`. -/
def acc_div (acc x : CFloat) : CFloat := CFloat.div acc x

/-- The `while` loop of `core_acc` over the arguments after the first, and
the construction of the result once the list is exhausted.  A Float argument
is converted to the `float` parameter of `accumulate`. -/
def core_acc_loop (accumulate : CFloat → CFloat → CFloat) :
    CFloat → Bool → List Value → Value
  | acc, all_int, [] => if all_int then .int (CFloat.toInt acc) else .float acc
  | acc, _, .float x :: tail =>
    core_acc_loop accumulate (accumulate acc (CFloat.cast x)) false tail
  | acc, all_int, .int i :: tail =>
    core_acc_loop accumulate (accumulate acc (CFloat.ofInt i)) all_int tail
  | _, _, _ :: _ => value_make_error "Non-numeric argument in accumulation"

/-- The accumulation `core_acc` of `core.c`; `acc` is a `float`, to which a
Float first argument is converted.  The last case is not reached: the
cardinality check has returned for an empty list. -/
def core_acc (args : Option Value) (accumulate : CFloat → CFloat → CFloat) : Option Value :=
  match CHECK_ARGLIST args with
  | none => none
  | some list =>
    match REQUIRE_LIST_CARDINALITY_GE list 1 "Require at least one argument" with
    | some err => some err
    | none =>
      match list with
      | .float f :: tail => some (core_acc_loop accumulate (CFloat.cast f) false tail)
      | .int i :: tail => some (core_acc_loop accumulate (CFloat.ofInt i) true tail)
      | _ :: _ => some (value_make_error "Non-numeric argument in accumulation")
      | [] => none

/-- The builtin `+`. -/
def core_add (args : Option Value) : Option Value := core_acc args acc_add

/-- The builtin `-`. -/
def core_sub (args : Option Value) : Option Value := core_acc args acc_sub

/-- The builtin `*`. -/
def core_mul (args : Option Value) : Option Value := core_acc args acc_mul

/-- The builtin `/`. -/
def core_div (args : Option Value) : Option Value := core_acc args acc_div

/-! ## The spreading call `apply` -/

/-- What `apply` of `apply.h` hands back: its return value and the two
out-parameters `tco_expr` and `tco_env`. -/
structure ApplyResult (Env : Type) where
  result : Option Value
  tco_expr : Option Value
  tco_env : Option Env

/-- The constructor `list_new` of `list.h`: the empty list. -/
def list_new : List Value := []

/-- The operation `list_conj` of `list.h`: the list with one more element at
its end. -/
def list_conj (l : List Value) (x : Value) : List Value := l ++ [x]

/-- The operation `list_nth` of `list.h`; `NULL` when out of range. -/
def list_nth (l : List Value) (n : Nat) : Option Value := l.get? n

/-- The builtin `apply` of `core.c`, over the `apply` and `eval` of the
evaluator.  The items from `begin` up to but excluding `end` are all
elements but the last; `end->p` is the last element. -/
def core_apply {Env : Type} (apply : Value → Value → ApplyResult Env)
    (eval : Value → Option Env → Option Value) (args : Option Value) : Option Value :=
  match CHECK_ARGLIST args with
  | none => none
  | some list =>
    match REQUIRE_LIST_CARDINALITY_GE list 2 "APPLY requires at least two arguments" with
    | some err => some err
    | none =>
      match list with
      | [] => none
      | fn :: tail =>
        let n_args := tail.length
        let fn_args : Value :=
          match list_nth tail (n_args - 1) with
          | some (.list last) =>
            .list (last.foldl list_conj (tail.dropLast.foldl list_conj list_new))
          | _ => .list tail
        let r := apply fn fn_args
        match r.tco_expr with
        | some expr => eval expr r.tco_env
        | none => r.result

/-- The native functions of this development by address: the arithmetic
builtins sit at addresses 0 to 3 and the comparison builtins at 4 to 8; any
other address stands for a native function that returns `NULL`. -/
def core_native (p : Nat) : Option Value → Option Value :=
  match p with
  | 0 => core_add
  | 1 => core_sub
  | 2 => core_mul
  | 3 => core_div
  | 4 => core_eq
  | 5 => core_lt
  | 6 => core_leq
  | 7 => core_gt
  | 8 => core_geq
  | _ => fun _ => none

/-- Modelled from the spec: `apply` of `apply.h`, which is not part of the
sources at hand.  A builtin (the native function `native p` at its address)
is executed at once on the argument list and leaves no pending continuation;
a composite function yields what `call_fn` gives for its record (the stored
body as pending expression with the new environment, or an error result on an
arity mismatch); any other value yields an error result. -/
def apply {Env : Type} (native : Nat → Option Value → Option Value)
    (call_fn : Nat → Value → ApplyResult Env) : Value → Value → ApplyResult Env
  | .builtin_fn p, args => { result := native p (some args), tco_expr := none, tco_env := none }
  | .fn p, args => call_fn p args
  | _, _ =>
    { result := some (value_make_error "apply: not a function"),
      tco_expr := none, tco_env := none }

/-- The byte-wise lexicographic order of two strings: the first differing
byte decides, and a proper prefix comes first. -/
def lex_lt (s t : List Nat) : Prop := List.Lex (fun a b : Nat => a < b) s t

/-- The value `v` answers the question `p`: it is True when `p` holds and
False when it does not. -/
def decides (v : Value) (p : Prop) : Prop :=
  (p → v = VALUE_CONST_TRUE) ∧ (¬ p → v = VALUE_CONST_FALSE)

/-- The types without an order: Nil, Bool, Error, List and the functions. -/
def unorderable : Value → Bool
  | .nil => true
  | .bool _ => true
  | .error _ => true
  | .list _ => true
  | .builtin_fn _ => true
  | .fn _ => true
  | .macro_fn _ => true
  | _ => false

/-- The type test for `VALUE_INT`. -/
def is_int : Value → Bool
  | .int _ => true
  | _ => false

/-- The type test for `VALUE_FLOAT`. -/
def is_float : Value → Bool
  | .float _ => true
  | _ => false

/-- The value of a call made through `apply`: that of `eval` on the pending
expression and environment when `apply` left one, the result of `apply`
otherwise. -/
def force {Env : Type} (eval : Value → Option Env → Option Value) (r : ApplyResult Env) :
    Option Value :=
  match r.tco_expr with
  | some expr => eval expr r.tco_env
  | none => r.result

/-- The binary32 data in normal form: the values a `float` holds. -/
def CFloat.is_binary32 : CFloat → Prop
  | .fin _ m e => m < 2 ^ 24 ∧ -149 ≤ e ∧ e ≤ 104 ∧ (2 ^ 23 ≤ m ∨ e = -149)
  | _ => True

/-- A value that is one of the two boolean singletons or an error. -/
def bool_or_error : Value → Prop
  | .bool _ => True
  | .error _ => True
  | _ => False

/-! ## List builtins -/

/-- The type tags of `value.h`. -/
inductive ValueType where
  | VALUE_NIL
  | VALUE_BOOL
  | VALUE_INT
  | VALUE_FLOAT
  | VALUE_STRING
  | VALUE_SYMBOL
  | VALUE_ERROR
  | VALUE_LIST
  | VALUE_BUILTIN_FN
  | VALUE_FN
  | VALUE_MACRO_FN
  deriving DecidableEq, Repr

/-- The field `type` of a value. -/
def Value.type : Value → ValueType
  | .nil => .VALUE_NIL
  | .bool _ => .VALUE_BOOL
  | .int _ => .VALUE_INT
  | .float _ => .VALUE_FLOAT
  | .string _ => .VALUE_STRING
  | .symbol _ => .VALUE_SYMBOL
  | .error _ => .VALUE_ERROR
  | .list _ => .VALUE_LIST
  | .builtin_fn _ => .VALUE_BUILTIN_FN
  | .fn _ => .VALUE_FN
  | .macro_fn _ => .VALUE_MACRO_FN

/-- The macro `REQUIRE_VALUE_TYPE`: the error the builtin returns early, if
any.  The table `value_type_names` of `value.c` is not among the sources and
is the parameter `names`. -/
def REQUIRE_VALUE_TYPE (names : ValueType → String) (value : Value) (t : ValueType)
    (msg : String) : Option Value :=
  if value.type ≠ t then
    some (value_make_error (msg ++ ": expected " ++ names t ++ ", got " ++ names value.type))
  else none

/-- The macro `REQUIRE_LIST_CARDINALITY`: the error the builtin returns
early, if any. -/
def REQUIRE_LIST_CARDINALITY (l : List Value) (n : Nat) (msg : String) : Option Value :=
  if l.length ≠ n then
    some (value_make_error
      (msg ++ ": expected " ++ toString n ++ ", got " ++ toString l.length))
  else none

/-- The operation `list_head` of `list.h`; `NULL` on the empty list. -/
def list_head (l : List Value) : Option Value := l.head?

/-- The operation `list_cons` of `list.h`: the list with one more element at
its front. -/
def list_cons (l : List Value) (x : Value) : List Value := x :: l

/-- The constructor `value_new_bool`. -/
def value_new_bool (b : Bool) : Value := .bool b

/-- The helper `is_nil` of `core.c`. -/
def is_nil : Value → Bool
  | .nil => true
  | _ => false

/-- The helper `is_true` of `core.c`. -/
def is_true : Value → Bool
  | .bool b => b
  | _ => false

/-- The helper `is_false` of `core.c`. -/
def is_false : Value → Bool
  | .bool b => !b
  | _ => false

/-- The helper `is_symbol` of `value.h`. -/
def is_symbol : Value → Bool
  | .symbol _ => true
  | _ => false

/-- The builtin `list`. -/
def core_list (args : Option Value) : Option Value :=
  match CHECK_ARGLIST args with
  | none => none
  | some list => some (.list list)

/-- The builtin `list?`.  The last case is not reached: the cardinality
check has returned for an empty list. -/
def core_is_list (args : Option Value) : Option Value :=
  match CHECK_ARGLIST args with
  | none => none
  | some list =>
    match REQUIRE_LIST_CARDINALITY list 1 "list? requires exactly one parameter" with
    | some err => some err
    | none =>
      match list_head list with
      | some arg0 => some (truth (decide (arg0.type = .VALUE_LIST)))
      | none => none

/-- The builtin `empty?`.  The last cases are not reached: the checks have
returned for an empty argument list and for an argument that is no list. -/
def core_is_empty (names : ValueType → String) (args : Option Value) : Option Value :=
  match CHECK_ARGLIST args with
  | none => none
  | some list =>
    match REQUIRE_LIST_CARDINALITY list 1 "empty? requires exactly one parameter" with
    | some err => some err
    | none =>
      match list_head list with
      | some arg0 =>
        match REQUIRE_VALUE_TYPE names arg0 .VALUE_LIST "empty? requires a list type" with
        | some err => some err
        | none =>
          match arg0 with
          | .list l => some (truth (decide (l.length = 0)))
          | _ => none
      | none => none

/-- What a call of a builtin comes to: it returns a pointer (`none` is
`NULL`), or it dereferences a null pointer, where the behaviour of the
program is undefined (a crash in practice). -/
inductive Outcome where
  | ret (v : Option Value)
  | fault
  deriving Repr

/-- The conversion of a `size_t` to `int`, as on passing a list size to
`value_new_int`: a size up to `INT_MAX` keeps its value; beyond it the
result is implementation-defined, and is the wrapped value here. -/
def size_to_int (n : Nat) : Int :=
  if n ≤ 2147483647 then (n : Int)
  else ((n + 2147483648) % 4294967296 : Nat) - 2147483648

/-- The builtin `count`.  There is no cardinality check: on an empty
argument list `list_head` is `NULL` and `REQUIRE_VALUE_TYPE` reads its
`type` field. -/
def core_count (names : ValueType → String) (args : Option Value) : Outcome :=
  match CHECK_ARGLIST args with
  | none => .ret none
  | some l =>
    match list_head l with
    | none => .fault
    | some list =>
      match REQUIRE_VALUE_TYPE names list .VALUE_LIST "count requires a list argument" with
      | some err => .ret (some err)
      | none =>
        match list with
        | .list items => .ret (some (.int (size_to_int items.length)))
        | _ => .ret none

/-- The builtin `cons`.  The last cases are not reached: the checks have
returned for an argument list that is not of two elements and for a second
argument that is no list. -/
def core_cons (names : ValueType → String) (args : Option Value) : Option Value :=
  match CHECK_ARGLIST args with
  | none => none
  | some list =>
    match REQUIRE_LIST_CARDINALITY list 2 "CONS takes exactly two arguments" with
    | some err => some err
    | none =>
      match list_nth list 0, list_nth list 1 with
      | some first, some second =>
        match REQUIRE_VALUE_TYPE names second .VALUE_LIST
            "the second parameter to CONS must be a list" with
        | some err => some err
        | none =>
          match second with
          | .list l => some (.list (list_cons l first))
          | _ => none
      | _, _ => none

/-- The outer loop of `core_concat` over the arguments, `concat` being the
list built so far; the inner loop appends the items of an argument one by
one.  The last case is not reached: `REQUIRE_VALUE_TYPE` has returned for an
argument that is no list. -/
def core_concat_loop (names : ValueType → String) : List Value → List Value → Value
  | concat, [] => .list concat
  | concat, v :: rest =>
    match REQUIRE_VALUE_TYPE names v .VALUE_LIST "all parameters to CONCAT must be lists" with
    | some err => err
    | none =>
      match v with
      | .list items => core_concat_loop names (items.foldl list_conj concat) rest
      | _ => core_concat_loop names concat rest

/-- The builtin `concat`. -/
def core_concat (names : ValueType → String) (args : Option Value) : Option Value :=
  match CHECK_ARGLIST args with
  | none => none
  | some list => some (core_concat_loop names list_new list)

/-- The builtin `nil?`.  The last case is not reached. -/
def core_is_nil (args : Option Value) : Option Value :=
  match CHECK_ARGLIST args with
  | none => none
  | some list =>
    match REQUIRE_LIST_CARDINALITY list 1 "NIL? takes exactly one argument" with
    | some err => some err
    | none =>
      match list_head list with
      | some expr => some (value_new_bool (is_nil expr))
      | none => none

/-- The builtin `true?`.  The last case is not reached. -/
def core_is_true (args : Option Value) : Option Value :=
  match CHECK_ARGLIST args with
  | none => none
  | some list =>
    match REQUIRE_LIST_CARDINALITY list 1 "TRUE? takes exactly one argument" with
    | some err => some err
    | none =>
      match list_head list with
      | some expr => some (value_new_bool (is_true expr))
      | none => none

/-- The builtin `false?`.  The last case is not reached. -/
def core_is_false (args : Option Value) : Option Value :=
  match CHECK_ARGLIST args with
  | none => none
  | some list =>
    match REQUIRE_LIST_CARDINALITY list 1 "FALSE? takes exactly one argument" with
    | some err => some err
    | none =>
      match list_head list with
      | some expr => some (value_new_bool (is_false expr))
      | none => none

/-- The builtin `symbol?`.  The last case is not reached. -/
def core_is_symbol (args : Option Value) : Option Value :=
  match CHECK_ARGLIST args with
  | none => none
  | some list =>
    match REQUIRE_LIST_CARDINALITY list 1 "SYMBOL? takes exactly one argument" with
    | some err => some err
    | none =>
      match list_head list with
      | some expr => some (value_new_bool (is_symbol expr))
      | none => none

/-! ## The builtin `map` -/

/-- Modelled from the spec: the helper `is_error` of `value.h` on a pointer
that may be `NULL`.  `apply` leaves its result unpopulated when it hands back
a pending continuation, and `map` works on composite functions, so the test
is false on `NULL`. -/
def is_error_ptr : Option Value → Bool
  | some v => is_error v
  | none => false

/-- The constructor `value_make_list` of `value.h`: the list of one element. -/
def value_make_list (v : Value) : Value := .list [v]

/-- The `for` loop of `core_map`: `mapped` is the list built so far, the
second list holds the elements from index `i` on.  A forced value that is
`NULL` would be stored as a null item, which no list of this embedding
holds; the loop then yields `NULL`.  The `apply` and `eval` of the spec do
not lead there: exactly one of result and continuation is populated, and
`eval` gives a value. -/
def core_map_loop {Env : Type} (apply : Value → Value → ApplyResult Env)
    (eval : Value → Option Env → Option Value) (fn : Value) :
    List Value → List Value → Option Value
  | mapped, [] => some (.list mapped)
  | mapped, x :: rest =>
    if is_error_ptr (apply fn (value_make_list x)).result = true then
      (apply fn (value_make_list x)).result
    else
      match (match (apply fn (value_make_list x)).tco_expr with
        | some expr => eval expr (apply fn (value_make_list x)).tco_env
        | none => (apply fn (value_make_list x)).result) with
      | some v => core_map_loop apply eval fn (list_conj mapped v) rest
      | none => none

/-- The builtin `map` of `core.c`, over the `apply` and `eval` of the
evaluator.  The last cases are not reached. -/
def core_map {Env : Type} (names : ValueType → String)
    (apply : Value → Value → ApplyResult Env)
    (eval : Value → Option Env → Option Value) (args : Option Value) : Option Value :=
  match CHECK_ARGLIST args with
  | none => none
  | some list =>
    match REQUIRE_LIST_CARDINALITY list 2 "MAP takes exactly two parameters" with
    | some err => some err
    | none =>
      match list_nth list 0, list_nth list 1 with
      | some fn, some fn_args =>
        match REQUIRE_VALUE_TYPE names fn_args .VALUE_LIST
            "The second parameter to MAP must be a list" with
        | some err => some err
        | none =>
          match fn_args with
          | .list items => core_map_loop apply eval fn list_new items
          | _ => none
      | _, _ => none

/-! ## Rendering -/

/-- The loop of `fmt_u`: the decimal digits of `n`, most significant first,
in front of `ds`; `fuel` bounds the number of digits. -/
def dec_loop : Nat → Nat → List Nat → List Nat
  | 0, _, ds => ds
  | fuel + 1, n, ds =>
    if n / 10 = 0 then (48 + n % 10) :: ds
    else dec_loop fuel (n / 10) ((48 + n % 10) :: ds)

/-- The decimal text of a natural number, as bytes. -/
def fmt_u (n : Nat) : List Nat := dec_loop (n + 1) n []

/-- The text of the C library conversion `%d` of an `int`. -/
def fmt_d (i : Int) : List Nat :=
  if i < 0 then 45 :: fmt_u i.natAbs else fmt_u i.natAbs

/-- The six decimal places of `%f`: the decimal text of `k < 10^6` with
leading zeros. -/
def pad6 (k : Nat) : List Nat :=
  [48 + k / 100000 % 10, 48 + k / 10000 % 10, 48 + k / 1000 % 10, 48 + k / 100 % 10,
    48 + k / 10 % 10, 48 + k % 10]

/-- The text of the C library conversion `%f`: the value rounded to six
decimal places, ties to even; `inf` and `nan` for the infinities and NaN. -/
def fmt_f : CFloat → List Nat
  | .nan => [110, 97, 110]
  | .inf s => if s then [45, 105, 110, 102] else [105, 110, 102]
  | .fin s m e =>
    let num : Nat := if 0 ≤ e then m * 2 ^ e.toNat * 1000000 else m * 1000000
    let den : Nat := if 0 ≤ e then 1 else 2 ^ (-e).toNat
    let q := num / den
    let r := num % den
    let k := if den < 2 * r ∨ (2 * r = den ∧ q % 2 = 1) then q + 1 else q
    (if s then [45] else []) ++ fmt_u (k / 1000000) ++ [46] ++ pad6 (k % 1000000)

/-- What the rendering takes from outside the value model: the text of the
conversion `%p` of the address of a native function, which is
implementation-defined, and the renderings of the `args` and `body` fields
of the composite function record at an address. -/
structure Printer where
  pointer : Nat → List Nat
  fn_args : Nat → List Nat
  fn_body : Nat → List Nat

/-- The helper `str_append` of `core.c`: `strncat` appends the first
`n_part` bytes of `part` to `str`. -/
def str_append (str : List Nat) (_n_str : Nat) (part : List Nat) (n_part : Nat) : List Nat :=
  str ++ part.take n_part

/-- The bytes of the message of an Error value. -/
def error_bytes (msg : String) : List Nat := msg.toUTF8.toList.map UInt8.toNat

/-- The case of a composite function in `core_str_inner`: `(lambda `, the
rendering of the `args` field, a space, the rendering of the `body` field
and `)`, appended to `str`. -/
def str_lambda (pr : Printer) (str : List Nat) (p : Nat) : List Nat :=
  let s1 := str_append str str.length [40, 108, 97, 109, 98, 100, 97, 32] 8
  let s2 := s1 ++ pr.fn_args p
  let s3 := str_append s2 s2.length [32] 1
  let s4 := s3 ++ pr.fn_body p
  str_append s4 s4.length [41] 1

mutual
/-- The rendering `core_str_inner` of `core.c`: the text of `v` appended to
`str`. -/
def core_str_inner (pr : Printer) : List Nat → Value → List Nat
  | str, .nil => str_append str str.length [110, 105, 108] 3
  | str, .bool b =>
    str_append str str.length (if b then [116, 114, 117, 101] else [102, 97, 108, 115, 101])
      (if b then [116, 114, 117, 101] else [102, 97, 108, 115, 101]).length
  | str, .int i => str_append str str.length (fmt_d i) (fmt_d i).length
  | str, .float f => str_append str str.length (fmt_f f) (fmt_f f).length
  | str, .string s => str_append str str.length s s.length
  | str, .symbol s => str_append str str.length s s.length
  | str, .error msg => str_append str str.length (error_bytes msg) (error_bytes msg).length
  | str, .list l =>
    str_append (core_str_inner_loop pr (str_append str str.length [40] 1) l)
      (core_str_inner_loop pr (str_append str str.length [40] 1) l).length [41] 1
  | str, .fn p => str_lambda pr str p
  | str, .macro_fn p => str_lambda pr str p
  | str, .builtin_fn p =>
    str_append str str.length
      ([35, 60, 98, 117, 105, 108, 116, 105, 110, 95, 102, 110, 64] ++ pr.pointer p ++ [62])
      ([35, 60, 98, 117, 105, 108, 116, 105, 110, 95, 102, 110, 64] ++ pr.pointer p ++ [62]).length
/-- The `while` loop of the list case of `core_str_inner`: each element is
rendered, and a space follows it when another element comes after. -/
def core_str_inner_loop (pr : Printer) : List Nat → List Value → List Nat
  | str, [] => str
  | str, head2 :: tail2 =>
    core_str_inner_loop pr
      (if tail2.isEmpty then core_str_inner pr str head2
        else str_append (core_str_inner pr str head2) (core_str_inner pr str head2).length [32] 1)
      tail2
end

/-- The loop of `core_str_outer` over the arguments: each is rendered, and
when `printable` is set a space is appended after it. -/
def core_str_outer_loop (pr : Printer) (printable : Bool) : List Nat → List Value → List Nat
  | str, [] => str
  | str, head :: list =>
    core_str_outer_loop pr printable
      (if printable then
        str_append (core_str_inner pr str head) (core_str_inner pr str head).length [32] 1
      else core_str_inner pr str head)
      list

/-- The function `core_str_outer` of `core.c`: the empty string on `NULL`,
the renderings of the elements of a list, the rendering of any other value. -/
def core_str_outer (pr : Printer) (args : Option Value) (printable : Bool) : Option Value :=
  match args with
  | none => some (.string [])
  | some (.list list) => some (.string (core_str_outer_loop pr printable [] list))
  | some v => some (.string (core_str_inner pr [] v))

/-- The builtin `str`. -/
def core_str (pr : Printer) (args : Option Value) : Option Value := core_str_outer pr args false

/-- The builtin `pr-str`. -/
def core_pr_str (pr : Printer) (args : Option Value) : Option Value :=
  core_str_outer pr args true

/-- The rendering of a value: what `core_str_inner` appends to the empty
string. -/
def str_of (pr : Printer) (v : Value) : List Nat := core_str_inner pr [] v

/-- The number that a list of decimal digits stands for. -/
def dec_value (ds : List Nat) : Nat := ds.foldl (fun a d => a * 10 + (d - 48)) 0

mutual
/-- The values built from Nil, Bool, Int and List only. -/
def plain : Value → Bool
  | .nil => true
  | .bool _ => true
  | .int _ => true
  | .list l => plain_list l
  | _ => false
/-- The lists of values built from Nil, Bool, Int and List only. -/
def plain_list : List Value → Bool
  | [] => true
  | v :: rest => plain v && plain_list rest
end

/-- A text that is empty or starts with a space or a closing parenthesis:
what may follow the rendering of an element within a list. -/
def delim_start : List Nat → Prop
  | [] => True
  | c :: _ => c = 32 ∨ c = 41

/-- A text without space and parentheses. -/
def is_word (a : List Nat) : Prop := ∀ c ∈ a, c ≠ 32 ∧ c ≠ 40 ∧ c ≠ 41

/-- The atoms among the plain values: Nil, the Bools and the Ints. -/
def is_atom : Value → Bool
  | .nil => true
  | .bool _ => true
  | .int _ => true
  | _ => false

/-- The renderings of the elements of a list with one space between two
neighbours. -/
def str_items (pr : Printer) (l : List Value) : List Nat :=
  List.intercalate [32] (l.map (str_of pr))

/-- A printer for values without functions: it renders nothing for them. -/
def null_printer : Printer := ⟨fun _ => [], fun _ => [], fun _ => []⟩

/-! ## IR lowering -/

/-- An atom node of the syntax tree (`AstAtom` of `ast.h`): its location and
its payload.  The declarations of `ast.h` and `value.h` are not among the
sources; the payloads `decimal` and `integer` are taken at the types that
`value_new_float` and `value_new_int` store. -/
inductive AstAtom (Loc : Type) where
  | float (loc : Loc) (decimal : CFloat)
  | int (loc : Loc) (integer : Int)
  | string (loc : Loc) (str : List Nat)
  | symbol (loc : Loc) (str : List Nat)

mutual
/-- An expression node of the syntax tree (`AstSexpr`): an atom, a list or
one of the four quoting forms, with its location. -/
inductive AstSexpr (Loc : Type) where
  | atom (loc : Loc) (atom : AstAtom Loc)
  | list (loc : Loc) (list : AstList Loc)
  | quote (loc : Loc) (quoted : AstSexpr Loc)
  | quasiquote (loc : Loc) (quoted : AstSexpr Loc)
  | unquote (loc : Loc) (quoted : AstSexpr Loc)
  | splice_unquote (loc : Loc) (quoted : AstSexpr Loc)
/-- A list node of the syntax tree (`AstList`): the empty list node
`AST_LIST_EMPTY`, or a compound node of a first expression and the
remaining list. -/
inductive AstList (Loc : Type) where
  | empty (loc : Loc)
  | compound (loc : Loc) (sexpr : AstSexpr Loc) (list : AstList Loc)
end

/-- A value together with its `loc` field, for the values that lowering
builds: the atoms and the lists. -/
inductive LocValue (Loc : Type) where
  | float (loc : Loc) (f : CFloat)
  | int (loc : Loc) (i : Int)
  | string (loc : Loc) (s : List Nat)
  | symbol (loc : Loc) (s : List Nat)
  | list (loc : Loc) (l : List (LocValue Loc))

/-- The field `loc` of a value. -/
def LocValue.loc {Loc : Type} : LocValue Loc → Loc
  | .float loc _ => loc
  | .int loc _ => loc
  | .string loc _ => loc
  | .symbol loc _ => loc
  | .list loc _ => loc

mutual
/-- The value without its locations. -/
def LocValue.value {Loc : Type} : LocValue Loc → Value
  | .float _ f => .float f
  | .int _ i => .int i
  | .string _ s => .string s
  | .symbol _ s => .symbol s
  | .list _ l => .list (LocValue.values l)
/-- The values of a list without their locations. -/
def LocValue.values {Loc : Type} : List (LocValue Loc) → List Value
  | [] => []
  | v :: rest => LocValue.value v :: LocValue.values rest
end

/-- The function `ir_from_ast_atom` of `ir.c`.  The `default` case of its
`switch` is not reached on the four kinds of atom. -/
def ir_from_ast_atom {Loc : Type} : AstAtom Loc → LocValue Loc
  | .float loc decimal => .float loc decimal
  | .int loc integer => .int loc integer
  | .string loc str => .string loc str
  | .symbol loc str => .symbol loc str

/-- The two-element list that `ir_from_ast_sexpr` builds for a quoting
form: a new empty list tagged `loc`, to which `list_conj` appends the symbol
`name`, tagged `loc` too, and then the lowered expression. -/
def ir_quoted {Loc : Type} (loc : Loc) (name : List Nat) (sexpr : LocValue Loc) :
    LocValue Loc :=
  .list loc (([] ++ [LocValue.symbol loc name]) ++ [sexpr])

mutual
/-- The function `ir_from_ast_sexpr` of `ir.c` on a node; a `NULL` node is
the matter of `ir_from_ast`. -/
def ir_from_ast_sexpr {Loc : Type} : AstSexpr Loc → LocValue Loc
  | .atom _ atom => ir_from_ast_atom atom
  | .list _ list => ir_from_ast_list list
  | .quote loc quoted => ir_quoted loc [113, 117, 111, 116, 101] (ir_from_ast_sexpr quoted)
  | .quasiquote loc quoted =>
    ir_quoted loc [113, 117, 97, 115, 105, 113, 117, 111, 116, 101] (ir_from_ast_sexpr quoted)
  | .unquote loc quoted =>
    ir_quoted loc [117, 110, 113, 117, 111, 116, 101] (ir_from_ast_sexpr quoted)
  | .splice_unquote loc quoted =>
    ir_quoted loc [115, 112, 108, 105, 99, 101, 45, 117, 110, 113, 117, 111, 116, 101]
      (ir_from_ast_sexpr quoted)
/-- The function `ir_from_ast_list` of `ir.c`: the lowered first expression
is put by `list_cons` in front of the items of the lowered remaining list,
within that list value.  The last case is not reached: the lowering of a
list node is a list. -/
def ir_from_ast_list {Loc : Type} : AstList Loc → LocValue Loc
  | .empty loc => .list loc []
  | .compound _ sexpr list =>
    match ir_from_ast_list list with
    | .list loc items => .list loc (ir_from_ast_sexpr sexpr :: items)
    | other => other
end

/-- The function `ir_from_ast` of `ir.c`: `NULL` on a `NULL` tree. -/
def ir_from_ast {Loc : Type} : Option (AstSexpr Loc) → Option (LocValue Loc)
  | none => none
  | some ast => some (ir_from_ast_sexpr ast)

/-- The children of a list node, in source order. -/
def AstList.children {Loc : Type} : AstList Loc → List (AstSexpr Loc)
  | .empty _ => []
  | .compound _ sexpr list => sexpr :: AstList.children list

/-- The location of the empty list node that ends a list node. -/
def AstList.terminator {Loc : Type} : AstList Loc → Loc
  | .empty loc => loc
  | .compound _ _ list => AstList.terminator list

/-- The pairs of values of one ordered scalar kind: two Ints, two Strings or
two Symbols. -/
def same_scalar_kind : Value → Value → Bool
  | .int _, .int _ => true
  | .string _, .string _ => true
  | .symbol _, .symbol _ => true
  | _, _ => false

/-- Exactly one of three propositions holds. -/
def exactly_one (p q r : Prop) : Prop :=
  (p ∧ ¬ q ∧ ¬ r) ∨ (¬ p ∧ q ∧ ¬ r) ∨ (¬ p ∧ ¬ q ∧ r)

/-- The sign factor of a floating-point datum: `-1` when the sign is set. -/
def CFloat.sign (s : Bool) : ℚ := if s then -1 else 1

/-- The rational number that a finite floating-point datum stands for:
`(-1)^s * m * 2^e`; an infinity and NaN stand for none. -/
def CFloat.toRat : CFloat → Option ℚ
  | .fin s m e => some (CFloat.sign s * (m : ℚ) * (2 : ℚ) ^ e)
  | _ => none

/-- Equality of two floating-point data as IEEE 754 has it: two finite data
that stand for the same number (so the two zeros are equal), or two
infinities of the same sign; NaN is equal to nothing. -/
def CFloat.num_eq : CFloat → CFloat → Prop
  | .fin s m e, .fin t n f =>
    CFloat.sign s * (m : ℚ) * (2 : ℚ) ^ e = CFloat.sign t * (n : ℚ) * (2 : ℚ) ^ f
  | .inf s, .inf t => s = t
  | _, _ => False

/-- The datum `x` is the conversion of the integer `i` to `float`: a
binary32 datum in normal form of the sign of `i` whose magnitude is nearest
to that of `i` among the magnitudes `m * 2^e` of at most 24 significant
bits, with an even significand when `i` lies half-way to the next one. -/
def CFloat.rounds (i : Int) : CFloat → Prop
  | .fin s m e =>
    s = decide (i < 0) ∧ m < 2 ^ 24 ∧ -149 ≤ e ∧ e ≤ 104 ∧ (2 ^ 23 ≤ m ∨ e = -149) ∧
    (∀ (k : Nat) (g : Int), k < 2 ^ 24 →
      abs ((m : ℚ) * (2 : ℚ) ^ e - abs (i : ℚ)) ≤ abs ((k : ℚ) * (2 : ℚ) ^ g - abs (i : ℚ))) ∧
    (2 * abs ((m : ℚ) * (2 : ℚ) ^ e - abs (i : ℚ)) = (2 : ℚ) ^ e → m % 2 = 0)
  | _ => False

/-! ## The conversion to `float` -/

theorem CFloat.log2_loop_spec (fuel : Nat) : ∀ n : Nat, 0 < n → n ≤ fuel →
    2 ^ CFloat.log2_loop fuel n ≤ n ∧ n < 2 ^ (CFloat.log2_loop fuel n + 1) := by
  induction fuel with
  | zero => intro n h0 h; omega
  | succ fuel ih =>
    intro n h0 h
    rw [CFloat.log2_loop]
    by_cases h2 : n < 2
    · rw [if_pos h2]
      have : n = 1 := by omega
      subst this
      simp
    · rw [if_neg h2]
      obtain ⟨hlo, hhi⟩ := ih (n / 2) (by omega) (by omega)
      rw [pow_succ, pow_succ]
      rw [pow_succ] at hhi
      constructor <;> omega

theorem CFloat.log2_spec (n : Nat) (h0 : 0 < n) :
    2 ^ CFloat.log2 n ≤ n ∧ n < 2 ^ (CFloat.log2 n + 1) :=
  CFloat.log2_loop_spec n n h0 (Nat.le_refl n)

/-- Rounding leaves alone a magnitude `m * 2^e` that is already a binary32
datum in normal form. -/
theorem CFloat.round_binary32 (s : Bool) (m : Nat) (e : Int) (hm : m < 2 ^ 24)
    (hlo : -149 ≤ e) (hhi : e ≤ 104) (hnorm : 2 ^ 23 ≤ m ∨ e = -149) :
    CFloat.round s m 1 e = .fin s m e := by
  by_cases hm0 : m = 0
  · subst hm0
    rcases hnorm with h | h
    · simp at h
    · subst h; simp [CFloat.round]
  · obtain ⟨hl, hu⟩ := CFloat.log2_spec m (Nat.pos_of_ne_zero hm0)
    have hk : CFloat.log2 m ≤ 23 := by
      by_contra hc
      have : 2 ^ 24 ≤ 2 ^ CFloat.log2 m := Nat.pow_le_pow_right (by decide) (by omega)
      omega
    have ht : max (((CFloat.log2 m : Nat) : Int) + e - 23) (-149) = e := by
      rcases hnorm with h | h
      · have h23 : CFloat.log2 m = 23 := by
          by_contra hc
          have : 2 ^ (CFloat.log2 m + 1) ≤ 2 ^ 23 := Nat.pow_le_pow_right (by decide) (by omega)
          omega
        rw [h23]
        omega
      · subst h
        omega
    have h1 : CFloat.log2 1 = 0 := rfl
    have hpack : CFloat.pack s m e = .fin s m e := by
      have hne : m ≠ 2 ^ 24 := by omega
      have hnot : ¬ (104 < e) := by omega
      rw [CFloat.pack, if_neg hne, if_neg hnot]
    rw [CFloat.round, if_neg hm0]
    simp only [h1, Nat.cast_zero, sub_zero, Nat.cast_nonneg, if_true, Int.toNat_ofNat, one_mul,
      hl, decide_True, ht, sub_self, le_refl, Int.toNat_zero, pow_zero, mul_one, Nat.div_one,
      Nat.mod_one, mul_zero, not_lt_zero', false_or, zero_ne_one, false_and, if_false]
    exact hpack

/-- The floating-point data of `float` width, in normal form. -/
theorem CFloat.cast_binary32 (x : CFloat) (h : CFloat.is_binary32 x) : CFloat.cast x = x := by
  cases x with
  | fin s m e =>
    obtain ⟨hm, hlo, hhi, hnorm⟩ := h
    exact CFloat.round_binary32 s m e hm hlo hhi hnorm
  | inf s => rfl
  | nan => rfl

/-! ## Equality of lists (C1) -/

theorem match_true_iff (r k : Value) :
    (match r with
      | .bool true => k
      | r => r) = VALUE_CONST_TRUE ↔ r = VALUE_CONST_TRUE ∧ k = VALUE_CONST_TRUE := by
  cases r with
  | bool b => cases b <;> simp
  | _ => simp

theorem cmp_eq_loop_cons (a b : Value) (as bs : List Value) :
    cmp_eq_loop (a :: as) (b :: bs) =
      (match cmp_eq a b with
        | .bool true => cmp_eq_loop as bs
        | r => r) := by
  rw [cmp_eq_loop]

theorem cmp_eq_loop_true_iff (as : List Value) : ∀ bs : List Value,
    cmp_eq_loop as bs = VALUE_CONST_TRUE ↔
      ∀ (i : Nat) (ha : i < as.length) (hb : i < bs.length),
        cmp_eq (as.get ⟨i, ha⟩) (bs.get ⟨i, hb⟩) = VALUE_CONST_TRUE := by
  induction as with
  | nil => intro bs; simp [cmp_eq_loop]
  | cons a as ih =>
    intro bs
    cases bs with
    | nil => simp [cmp_eq_loop]
    | cons b bs =>
      rw [cmp_eq_loop_cons, match_true_iff, ih bs]
      constructor
      · rintro ⟨h0, hs⟩ i ha hb
        cases i with
        | zero => simpa using h0
        | succ i => simpa using hs i (by simpa using ha) (by simpa using hb)
      · intro h
        refine ⟨by simpa using h 0 (by simp) (by simp), ?_⟩
        intro i ha hb
        simpa using h (i + 1) (by simpa using ha) (by simpa using hb)

theorem cmp_eq_list_def (a b : List Value) :
    cmp_eq (.list a) (.list b) =
      if a.length = b.length then
        if a.length = 0 then VALUE_CONST_TRUE else cmp_eq_loop a b
      else VALUE_CONST_FALSE := by
  rw [cmp_eq]


/-- C1: for all lists `a` and `b`, `cmp_eq` on them is True exactly when they
have the same length and `cmp_eq` is True on the elements at every position;
when the lengths differ the result is False; two empty lists are equal. -/
theorem cmp_eq_list_iff (a b : List Value) :
    (cmp_eq (.list a) (.list b) = VALUE_CONST_TRUE ↔
      a.length = b.length ∧
        ∀ (i : Nat) (ha : i < a.length) (hb : i < b.length),
          cmp_eq (a.get ⟨i, ha⟩) (b.get ⟨i, hb⟩) = VALUE_CONST_TRUE) ∧
    (a.length ≠ b.length → cmp_eq (.list a) (.list b) = VALUE_CONST_FALSE) ∧
    cmp_eq (.list []) (.list []) = VALUE_CONST_TRUE := by
  refine ⟨?_, ?_, ?_⟩
  · rw [cmp_eq_list_def]
    by_cases h : a.length = b.length
    · by_cases h0 : a.length = 0
      · have ha : a = [] := List.length_eq_zero.mp h0
        have hb : b = [] := List.length_eq_zero.mp (h ▸ h0)
        subst ha hb
        simp
      · rw [if_pos h, if_neg h0, cmp_eq_loop_true_iff a b]
        exact ⟨fun hall => ⟨h, hall⟩, fun hall => hall.2⟩
    · simp [h]
  · intro h
    rw [cmp_eq_list_def]
    simp [h]
  · rw [cmp_eq_list_def]
    simp

/-- Witness of C1: a list of one element against a list of two. -/
theorem cmp_eq_list_iff_witness :
    cmp_eq (.list [.int 1]) (.list [.int 1, .int 2]) = VALUE_CONST_FALSE :=
  (cmp_eq_list_iff [.int 1] [.int 1, .int 2]).2.1 (by decide)


/-! ## Comparison chains (C2) -/

theorem truth_bool_or_error (c : Bool) : bool_or_error (truth c) := by
  cases c <;> simp [truth, bool_or_error]

theorem match_not_true (r k : Value) : r ≠ VALUE_CONST_TRUE →
    (match r with
      | .bool true => k
      | r => r) = r := by
  intro h
  cases r with
  | bool b => cases b <;> simp at h ⊢
  | _ => rfl

theorem cmp_eq_bool_or_error (a b : Value) : bool_or_error (cmp_eq a b) := by
  apply cmp_eq.induct (fun a b => bool_or_error (cmp_eq a b))
    (fun as bs => bool_or_error (cmp_eq_loop as bs))
  case case11 =>
    intro a b h h0
    rw [cmp_eq_list_def, if_pos h, if_pos h0]
    trivial
  case case12 =>
    intro a b h h0 ih
    rw [cmp_eq_list_def, if_pos h, if_neg h0]
    exact ih
  case case13 =>
    intro a b h
    rw [cmp_eq_list_def, if_neg h]
    trivial
  case case17 =>
    intro a as b bs h _ ih
    rw [cmp_eq_loop_cons, h]
    exact ih
  case case18 =>
    intro a as b bs h ih
    rw [cmp_eq_loop_cons, match_not_true _ _ (fun hc => h hc)]
    exact ih
  case case19 =>
    intro t x h
    cases t with
    | nil => simp [cmp_eq_loop, bool_or_error]
    | cons a as =>
      cases x with
      | nil => simp [cmp_eq_loop, bool_or_error]
      | cons b bs => exact (h a as b bs rfl rfl).elim
  all_goals (intros; simp only [cmp_eq]; first | exact truth_bool_or_error _ | simp [bool_or_error, value_make_error])

theorem cmp_lt_bool_or_error (a b : Value) : bool_or_error (cmp_lt a b) := by
  cases a <;> cases b <;> simp only [cmp_lt] <;>
    first | exact truth_bool_or_error _ | simp [bool_or_error, value_make_error]

theorem cmp_leq_bool_or_error (a b : Value) : bool_or_error (cmp_leq a b) := by
  cases a <;> cases b <;> simp only [cmp_leq] <;>
    first | exact truth_bool_or_error _ | simp [bool_or_error, value_make_error]

theorem cmp_gt_bool_or_error (a b : Value) : bool_or_error (cmp_gt a b) := by
  cases a <;> cases b <;> simp only [cmp_gt] <;>
    first | exact truth_bool_or_error _ | simp [bool_or_error, value_make_error]

theorem cmp_geq_bool_or_error (a b : Value) : bool_or_error (cmp_geq a b) := by
  cases a <;> cases b <;> simp only [cmp_geq] <;>
    first | exact truth_bool_or_error _ | simp [bool_or_error, value_make_error]

theorem compare_loop_some_cons (cmp : Value → Value → Value) (p h : Value) (t : List Value) :
    compare_loop cmp (some p) (h :: t) =
      (match cmp p h with
        | .bool true => compare_loop cmp (some h) t
        | r => r) := by
  rw [compare_loop]

/-- The loop started after `p` is True exactly when every consecutive pair
of `p :: vs` compares True. -/
theorem compare_loop_true_iff (cmp : Value → Value → Value) (vs : List Value) :
    ∀ p : Value, compare_loop cmp (some p) vs = VALUE_CONST_TRUE ↔
      ∀ (i : Nat) (a b : Value), (p :: vs)[i]? = some a → (p :: vs)[i + 1]? = some b →
        cmp a b = VALUE_CONST_TRUE := by
  induction vs with
  | nil => intro p; simp [compare_loop]
  | cons h t ih =>
    intro p
    rw [compare_loop_some_cons, match_true_iff, ih h]
    constructor
    · rintro ⟨h0, hs⟩ i a b ha hb
      cases i with
      | zero =>
        simp at ha hb
        subst ha hb
        exact h0
      | succ i =>
        exact hs i a b (by simpa using ha) (by simpa using hb)
    · intro hall
      refine ⟨hall 0 p h (by simp) (by simp), ?_⟩
      intro i a b ha hb
      exact hall (i + 1) a b (by simpa using ha) (by simpa using hb)

/-- The loop started after `p` returns the result of the leftmost pair of
`p :: vs` that does not compare True. -/
theorem compare_loop_first_fail (cmp : Value → Value → Value) (vs : List Value) :
    ∀ (p : Value) (i : Nat) (a b : Value),
      (p :: vs)[i]? = some a → (p :: vs)[i + 1]? = some b →
      (∀ (j : Nat) (x y : Value), j < i → (p :: vs)[j]? = some x → (p :: vs)[j + 1]? = some y →
        cmp x y = VALUE_CONST_TRUE) →
      cmp a b ≠ VALUE_CONST_TRUE →
      compare_loop cmp (some p) vs = cmp a b := by
  induction vs with
  | nil => intro p i a b _ hb; simp at hb
  | cons h t ih =>
    intro p i a b ha hb hpre hne
    rw [compare_loop_some_cons]
    cases i with
    | zero =>
      simp at ha hb
      subst ha hb
      exact match_not_true _ _ hne
    | succ i =>
      have h0 : cmp p h = VALUE_CONST_TRUE := hpre 0 p h (Nat.succ_pos i) (by simp) (by simp)
      rw [h0]
      refine ih h i a b (by simpa using ha) (by simpa using hb) ?_ hne
      intro j x y hj hx hy
      exact hpre (j + 1) x y (Nat.succ_lt_succ hj) (by simpa using hx) (by simpa using hy)

theorem compare_two_le (cmp : Value → Value → Value) (v w : Value) (vs : List Value) :
    compare (some (.list (v :: w :: vs))) cmp = some (compare_loop cmp (some v) (w :: vs)) := by
  have hlen : ¬ (vs.length + 1 + 1 < 2) := by omega
  simp [compare, CHECK_ARGLIST, REQUIRE_LIST_CARDINALITY_GE, compare_loop, hlen]


/-- C2: on an argument list of at least two values the chained comparison
is True exactly when every consecutive pair compares True; otherwise it is
the result of the leftmost consecutive pair that does not compare True, and
that result stands whatever the comparison would give on later pairs (any
comparison that agrees up to that pair gives the same result).  On fewer
than two values it is an Error.  The five pairwise comparisons only give
True, False or an Error, and `=`, `<`, `<=`, `>`, `>=` are this chain over
them. -/
theorem compare_chain (cmp : Value → Value → Value) (vs : List Value) :
    (2 ≤ vs.length →
      (compare (some (.list vs)) cmp = some VALUE_CONST_TRUE ↔
        ∀ (i : Nat) (a b : Value), vs[i]? = some a → vs[i + 1]? = some b →
          cmp a b = VALUE_CONST_TRUE) ∧
      (∀ (i : Nat) (a b : Value), vs[i]? = some a → vs[i + 1]? = some b →
        (∀ (j : Nat) (x y : Value), j < i → vs[j]? = some x → vs[j + 1]? = some y →
          cmp x y = VALUE_CONST_TRUE) →
        cmp a b ≠ VALUE_CONST_TRUE →
        ∀ cmp2 : Value → Value → Value,
          (∀ (j : Nat) (x y : Value), j ≤ i → vs[j]? = some x → vs[j + 1]? = some y →
            cmp2 x y = cmp x y) →
          compare (some (.list vs)) cmp2 = some (cmp a b))) ∧
    (vs.length < 2 → ∃ msg : String, compare (some (.list vs)) cmp = some (.error msg)) ∧
    (∀ a b : Value, bool_or_error (cmp_eq a b) ∧ bool_or_error (cmp_lt a b) ∧
      bool_or_error (cmp_leq a b) ∧ bool_or_error (cmp_gt a b) ∧
      bool_or_error (cmp_geq a b)) ∧
    (∀ args : Option Value, core_eq args = compare args cmp_eq ∧
      core_lt args = compare args cmp_lt ∧ core_leq args = compare args cmp_leq ∧
      core_gt args = compare args cmp_gt ∧ core_geq args = compare args cmp_geq) := by
  refine ⟨?_, ?_, ?_, ?_⟩
  · intro hlen
    match vs, hlen with
    | v :: w :: rest, _ =>
      refine ⟨?_, ?_⟩
      · rw [compare_two_le, Option.some_inj]
        exact compare_loop_true_iff cmp (w :: rest) v
      · intro i a b ha hb hpre hne cmp2 hagree
        rw [compare_two_le, Option.some_inj, ← hagree i a b (Nat.le_refl i) ha hb]
        refine compare_loop_first_fail cmp2 (w :: rest) v i a b ha hb ?_ ?_
        · intro j x y hj hx hy
          rw [hagree j x y (Nat.le_of_lt hj) hx hy]
          exact hpre j x y hj hx hy
        · rw [hagree i a b (Nat.le_refl i) ha hb]
          exact hne
  · intro hlen
    match vs, hlen with
    | [], _ => exact ⟨_, rfl⟩
    | [v], _ => exact ⟨_, rfl⟩
  · intro a b
    exact ⟨cmp_eq_bool_or_error a b, cmp_lt_bool_or_error a b, cmp_leq_bool_or_error a b,
      cmp_gt_bool_or_error a b, cmp_geq_bool_or_error a b⟩
  · intro args
    exact ⟨rfl, rfl, rfl, rfl, rfl⟩

/-- Witness of C2: `(< 2 1 nil)` is the result of its first pair; the pair
`(1, nil)` is not compared. -/
theorem compare_chain_witness :
    compare (some (.list [.int 2, .int 1, .nil])) cmp_lt = some (cmp_lt (.int 2) (.int 1)) :=
  ((compare_chain cmp_lt [.int 2, .int 1, .nil]).1 (by decide)).2 0 (.int 2) (.int 1) rfl rfl
    (fun j _ _ hj => absurd hj (Nat.not_lt_zero j)) (by simp [cmp_lt, truth]) cmp_lt
    (fun _ _ _ _ _ _ => rfl)

/-! ## Pairwise comparisons of atoms (C3 to C6) -/

theorem CFloat.pack_ne_nan (s : Bool) (q : Nat) (t : Int) :
    CFloat.pack s q t ≠ CFloat.nan := by
  unfold CFloat.pack
  split_ifs <;> simp

theorem CFloat.round_ne_nan (s : Bool) (n d : Nat) (e : Int) :
    CFloat.round s n d e ≠ CFloat.nan := by
  by_cases h : n = 0
  · simp [CFloat.round, h]
  · rw [CFloat.round, if_neg h]
    exact CFloat.pack_ne_nan _ _ _

theorem CFloat.eq_self (x : CFloat) (h : x ≠ CFloat.nan) : CFloat.eq x x = true := by
  cases x <;> simp [CFloat.eq] at h ⊢

theorem CFloat.eq_ofInt_self (i : Int) :
    CFloat.eq (CFloat.ofInt i) (CFloat.ofInt i) = true :=
  CFloat.eq_self _ (CFloat.round_ne_nan _ _ _ _)


theorem CFloat.two_zpow_pos (k : Int) : (0 : ℚ) < (2 : ℚ) ^ k := by positivity

/-- A finite datum scaled to an exponent below its own stands for the same
number. -/
theorem CFloat.scaled_toRat (s : Bool) (m : Nat) (e k : Int) (hk : k ≤ e) :
    ((CFloat.scaled s m e k : Int) : ℚ) * (2 : ℚ) ^ k =
      CFloat.sign s * (m : ℚ) * (2 : ℚ) ^ e := by
  have hpow : ((2 ^ (e - k).toNat : Nat) : ℚ) * (2 : ℚ) ^ k = (2 : ℚ) ^ e := by
    have h1 : ((e - k).toNat : Int) = e - k := Int.toNat_of_nonneg (by omega)
    have h2 : ((2 ^ (e - k).toNat : Nat) : ℚ) = (2 : ℚ) ^ (((e - k).toNat : Nat) : Int) := by
      rw [zpow_natCast]
      push_cast
      rfl
    rw [h2, h1, ← zpow_add₀ (by norm_num : (2 : ℚ) ≠ 0)]
    congr 1
    omega
  cases s
  · simp only [CFloat.scaled, Bool.false_eq_true, if_false, CFloat.sign]
    push_cast
    rw [mul_assoc, ← hpow]
    push_cast
    ring
  · simp only [CFloat.scaled, if_true, CFloat.sign]
    push_cast
    rw [← hpow]
    push_cast
    ring

/-- The operator `==` is numeric equality: on finite data it holds exactly
of those that stand for the same number, on infinities of those of the same
sign, and it never holds of NaN. -/
theorem CFloat.eq_iff_num_eq (a b : CFloat) : CFloat.eq a b = true ↔ CFloat.num_eq a b := by
  cases a with
  | nan => cases b <;> simp [CFloat.eq, CFloat.num_eq]
  | inf s => cases b <;> simp [CFloat.eq, CFloat.num_eq]
  | fin s m e =>
    cases b with
    | nan => simp [CFloat.eq, CFloat.num_eq]
    | inf t => simp [CFloat.eq, CFloat.num_eq]
    | fin t n f =>
      simp only [CFloat.eq, CFloat.num_eq, beq_iff_eq]
      rw [← CFloat.scaled_toRat s m e (min e f) (min_le_left e f),
        ← CFloat.scaled_toRat t n f (min e f) (min_le_right e f)]
      constructor
      · intro h
        rw [h]
      · intro h
        have hpos := CFloat.two_zpow_pos (min e f)
        have h2 := mul_right_cancel₀ (ne_of_gt hpos) h
        exact_mod_cast h2

theorem CFloat.round_int_small (s : Bool) (n : Nat) (hn : n ≠ 0) (hL : CFloat.log2 n ≤ 23) :
    CFloat.round s n 1 0 =
      .fin s (n * 2 ^ (23 - CFloat.log2 n)) ((CFloat.log2 n : Int) - 23) := by
  obtain ⟨hl, hu⟩ := CFloat.log2_spec n (Nat.pos_of_ne_zero hn)
  have h1 : CFloat.log2 1 = 0 := rfl
  have ht : max ((CFloat.log2 n : Int) - 23) (-149) = (CFloat.log2 n : Int) - 23 := by omega
  have hsh : 0 ≤ -((CFloat.log2 n : Int) - 23) := by omega
  have hto : (-((CFloat.log2 n : Int) - 23)).toNat = 23 - CFloat.log2 n := by omega
  have hq : n * 2 ^ (23 - CFloat.log2 n) < 2 ^ 24 := by
    have h2 : 2 ^ (CFloat.log2 n + 1) * 2 ^ (23 - CFloat.log2 n) = 2 ^ 24 := by
      rw [← pow_add]
      congr 1
      omega
    have h3 : 0 < 2 ^ (23 - CFloat.log2 n) := Nat.pow_pos (by decide)
    calc n * 2 ^ (23 - CFloat.log2 n)
        < 2 ^ (CFloat.log2 n + 1) * 2 ^ (23 - CFloat.log2 n) :=
          Nat.mul_lt_mul_of_pos_right hu h3
      _ = 2 ^ 24 := h2
  rw [CFloat.round, if_neg hn]
  simp only [h1, Nat.cast_zero, sub_zero, Nat.cast_nonneg, if_true, Int.toNat_ofNat, one_mul,
    hl, decide_True, add_zero, zero_sub, ht, hsh, hto, Nat.mod_one, mul_zero, Nat.div_one,
    not_lt_zero', false_or, zero_ne_one, false_and, if_false]
  have hne : n * 2 ^ (23 - CFloat.log2 n) ≠ 2 ^ 24 := by omega
  have hnot : ¬ (104 < (CFloat.log2 n : Int) - 23) := by omega
  rw [CFloat.pack, if_neg hne, if_neg hnot]

theorem CFloat.round_int_large (s : Bool) (n : Nat) (hn : n ≠ 0) (hL : 24 ≤ CFloat.log2 n) :
    CFloat.round s n 1 0 =
      CFloat.pack s
        (if 2 ^ (CFloat.log2 n - 23) < 2 * (n % 2 ^ (CFloat.log2 n - 23)) ∨
            (2 * (n % 2 ^ (CFloat.log2 n - 23)) = 2 ^ (CFloat.log2 n - 23) ∧
              n / 2 ^ (CFloat.log2 n - 23) % 2 = 1) then
          n / 2 ^ (CFloat.log2 n - 23) + 1
        else n / 2 ^ (CFloat.log2 n - 23))
        ((CFloat.log2 n : Int) - 23) := by
  obtain ⟨hl, hu⟩ := CFloat.log2_spec n (Nat.pos_of_ne_zero hn)
  have h1 : CFloat.log2 1 = 0 := rfl
  have ht : max ((CFloat.log2 n : Int) - 23) (-149) = (CFloat.log2 n : Int) - 23 := by omega
  have hsh : ¬ (0 ≤ -((CFloat.log2 n : Int) - 23)) := by omega
  have hto : (- -((CFloat.log2 n : Int) - 23)).toNat = CFloat.log2 n - 23 := by omega
  rw [CFloat.round, if_neg hn]
  simp only [h1, Nat.cast_zero, sub_zero, Nat.cast_nonneg, if_true, Int.toNat_ofNat, one_mul,
    hl, decide_True, add_zero, zero_sub, ht, hsh, hto, if_false]

theorem CFloat.abs_int_cast (i : Int) : abs (i : ℚ) = (i.natAbs : ℚ) := by
  rw [← Int.cast_abs, Nat.cast_natAbs]

/-- A datum in normal form that stands for the magnitude of `i` exactly is
the conversion of `i`. -/
theorem CFloat.rounds_exact (i : Int) (m : Nat) (e : Int) (hm : m < 2 ^ 24) (hlo : -149 ≤ e)
    (hhi : e ≤ 104) (hnorm : 2 ^ 23 ≤ m ∨ e = -149)
    (hval : (m : ℚ) * (2 : ℚ) ^ e = abs (i : ℚ)) :
    CFloat.rounds i (.fin (decide (i < 0)) m e) := by
  refine ⟨rfl, hm, hlo, hhi, hnorm, ?_, ?_⟩
  · intro k g _
    rw [hval, sub_self, abs_zero]
    exact abs_nonneg _
  · intro h
    rw [hval, sub_self, abs_zero, mul_zero] at h
    exact absurd h (ne_of_lt (CFloat.two_zpow_pos e))

theorem CFloat.zpow_natCast_two (a : Nat) : (2 : ℚ) ^ ((a : Nat) : Int) = ((2 ^ a : Nat) : ℚ) := by
  rw [zpow_natCast]
  push_cast
  rfl

theorem CFloat.ofInt_rounds_small (i : Int) (hL : CFloat.log2 i.natAbs ≤ 23) :
    CFloat.rounds i (CFloat.ofInt i) := by
  by_cases hn : i.natAbs = 0
  · have hz : CFloat.ofInt i = .fin (decide (i < 0)) 0 (-149) := by
      simp [CFloat.ofInt, CFloat.round, hn]
    rw [hz]
    refine CFloat.rounds_exact i 0 (-149) (by decide) (by decide) (by decide) (Or.inr rfl) ?_
    rw [CFloat.abs_int_cast, hn]
    simp
  · obtain ⟨hl, hu⟩ := CFloat.log2_spec i.natAbs (Nat.pos_of_ne_zero hn)
    rw [CFloat.ofInt, CFloat.round_int_small _ _ hn hL]
    have hq : i.natAbs * 2 ^ (23 - CFloat.log2 i.natAbs) < 2 ^ 24 := by
      have h2 : 2 ^ (CFloat.log2 i.natAbs + 1) * 2 ^ (23 - CFloat.log2 i.natAbs) = 2 ^ 24 := by
        rw [← pow_add]
        congr 1
        omega
      have h3 : 0 < 2 ^ (23 - CFloat.log2 i.natAbs) := Nat.pow_pos (by decide)
      calc i.natAbs * 2 ^ (23 - CFloat.log2 i.natAbs)
          < 2 ^ (CFloat.log2 i.natAbs + 1) * 2 ^ (23 - CFloat.log2 i.natAbs) :=
            Nat.mul_lt_mul_of_pos_right hu h3
        _ = 2 ^ 24 := h2
    have hq2 : 2 ^ 23 ≤ i.natAbs * 2 ^ (23 - CFloat.log2 i.natAbs) := by
      have h2 : 2 ^ CFloat.log2 i.natAbs * 2 ^ (23 - CFloat.log2 i.natAbs) = 2 ^ 23 := by
        rw [← pow_add]
        congr 1
        omega
      calc 2 ^ 23 = 2 ^ CFloat.log2 i.natAbs * 2 ^ (23 - CFloat.log2 i.natAbs) := h2.symm
        _ ≤ i.natAbs * 2 ^ (23 - CFloat.log2 i.natAbs) := Nat.mul_le_mul_right _ hl
    refine CFloat.rounds_exact i _ _ hq (by omega) (by omega) (Or.inl hq2) ?_
    rw [CFloat.abs_int_cast]
    have he : ((CFloat.log2 i.natAbs : Int) - 23) = -((23 - CFloat.log2 i.natAbs : Nat) : Int) := by
      omega
    rw [he, zpow_neg, CFloat.zpow_natCast_two]
    have hpos : ((2 ^ (23 - CFloat.log2 i.natAbs) : Nat) : ℚ) ≠ 0 := by positivity
    push_cast
    field_simp

theorem CFloat.near_mult_down (P Q R K : ℚ) (hR : 0 ≤ R) (hP : 0 ≤ P) (h2 : 2 * R ≤ P)
    (hK : K ≤ Q ∨ Q + 1 ≤ K) :
    abs (Q * P - (P * Q + R)) ≤ abs (K * P - (P * Q + R)) := by
  have hl : Q * P - (P * Q + R) = -R := by ring
  rw [hl, abs_neg, abs_of_nonneg hR, le_abs]
  rcases hK with hK | hK
  · right
    have := mul_nonneg (sub_nonneg.mpr hK) hP
    linarith
  · left
    have h3 : 0 ≤ K - (Q + 1) := sub_nonneg.mpr hK
    have := mul_nonneg h3 hP
    linarith

theorem CFloat.near_mult_up (P Q R K : ℚ) (hRP : R ≤ P) (hP : 0 ≤ P) (h2 : P ≤ 2 * R)
    (hK : K ≤ Q ∨ Q + 1 ≤ K) :
    abs ((Q + 1) * P - (P * Q + R)) ≤ abs (K * P - (P * Q + R)) := by
  have hl : (Q + 1) * P - (P * Q + R) = P - R := by ring
  rw [hl, abs_of_nonneg (sub_nonneg.mpr hRP), le_abs]
  rcases hK with hK | hK
  · right
    have := mul_nonneg (sub_nonneg.mpr hK) hP
    linarith
  · left
    have h3 : 0 ≤ K - (Q + 1) := sub_nonneg.mpr hK
    have := mul_nonneg h3 hP
    linarith

theorem CFloat.near_below (N V Y R : ℚ) (hY : Y ≤ N - R) (hV : abs (V - N) ≤ R) :
    abs (V - N) ≤ abs (Y - N) := by
  refine le_trans hV ?_
  rw [le_abs]
  right
  linarith

/-- A candidate magnitude `k * 2^g` of at most 24 bits is a multiple of
`2^e0`, or it lies below `2^(e0 + 23)`. -/
theorem CFloat.candidate_cases (k : Nat) (g : Int) (a : Nat) (hk : k < 2 ^ 24) :
    (∃ K : Nat, (k : ℚ) * (2 : ℚ) ^ g = (K : ℚ) * ((2 ^ a : Nat) : ℚ)) ∨
      (k : ℚ) * (2 : ℚ) ^ g ≤ ((2 ^ (a + 23) : Nat) : ℚ) := by
  by_cases hg : (a : Int) ≤ g
  · left
    refine ⟨k * 2 ^ (g - a).toNat, ?_⟩
    have h1 : g = (((g - a).toNat : Nat) : Int) + ((a : Nat) : Int) := by omega
    rw [h1, zpow_add₀ (by norm_num : (2 : ℚ) ≠ 0), CFloat.zpow_natCast_two,
      CFloat.zpow_natCast_two]
    have h2 : (((g - a).toNat : Nat) : Int) + ((a : Nat) : Int) - (a : Int) =
        (((g - a).toNat : Nat) : Int) := by omega
    rw [h2, Int.toNat_ofNat]
    push_cast
    ring
  · right
    have hg2 : g ≤ ((a : Nat) : Int) - 1 := by omega
    have h1 : (2 : ℚ) ^ g ≤ (2 : ℚ) ^ (((a : Nat) : Int) - 1) :=
      zpow_le_zpow_right₀ (by norm_num) hg2
    have h2 : (k : ℚ) ≤ 2 ^ 24 := by
      have : k ≤ 2 ^ 24 := Nat.le_of_lt hk
      exact_mod_cast this
    have h3 : (2 : ℚ) ^ (((a : Nat) : Int) - 1) * 2 ^ 24 = ((2 ^ (a + 23) : Nat) : ℚ) := by
      have : (((a + 23 : Nat) : Nat) : Int) = ((a : Nat) : Int) - 1 + ((24 : Nat) : Int) := by
        push_cast
        omega
      rw [← CFloat.zpow_natCast_two (a + 23), this, zpow_add₀ (by norm_num : (2 : ℚ) ≠ 0),
        zpow_natCast]
    calc (k : ℚ) * (2 : ℚ) ^ g ≤ 2 ^ 24 * (2 : ℚ) ^ (((a : Nat) : Int) - 1) := by
          apply mul_le_mul h2 h1 (le_of_lt (CFloat.two_zpow_pos g)) (by positivity)
      _ = ((2 ^ (a + 23) : Nat) : ℚ) := by rw [mul_comm, h3]

/-- The rounded quotient of `n = p * q + r` by `p = 2^a`, with `2^23 ≤ q`,
packed at exponent `a`, is the conversion of `i` when `n` is the magnitude
of `i`. -/
theorem CFloat.rounds_large (i : Int) (a q r : Nat) (ha : a ≤ 103)
    (hn : i.natAbs = 2 ^ a * q + r) (hr : r < 2 ^ a) (hq : 2 ^ 23 ≤ q) (hq2 : q < 2 ^ 24) :
    CFloat.rounds i
      (CFloat.pack (decide (i < 0))
        (if 2 ^ a < 2 * r ∨ (2 * r = 2 ^ a ∧ q % 2 = 1) then q + 1 else q) (a : Int)) := by
  have hN : abs (i : ℚ) = ((2 ^ a : Nat) : ℚ) * (q : ℚ) + (r : ℚ) := by
    rw [CFloat.abs_int_cast, hn]
    push_cast
    ring
  have hP : (0 : ℚ) ≤ ((2 ^ a : Nat) : ℚ) := Nat.cast_nonneg _
  have hR : (0 : ℚ) ≤ (r : ℚ) := Nat.cast_nonneg _
  have hRP : (r : ℚ) ≤ ((2 ^ a : Nat) : ℚ) := by exact_mod_cast Nat.le_of_lt hr
  have hbelow : ((2 ^ (a + 23) : Nat) : ℚ) ≤ abs (i : ℚ) - (r : ℚ) := by
    rw [hN]
    have : 2 ^ (a + 23) ≤ 2 ^ a * q := by
      rw [pow_add]
      exact Nat.mul_le_mul_left _ hq
    have h2 : ((2 ^ (a + 23) : Nat) : ℚ) ≤ ((2 ^ a * q : Nat) : ℚ) := by exact_mod_cast this
    push_cast at h2 ⊢
    linarith
  have hcases : ∀ K : Nat, ((K : ℚ) ≤ (q : ℚ)) ∨ ((q : ℚ) + 1 ≤ (K : ℚ)) := by
    intro K
    rcases Nat.lt_or_ge q K with h | h
    · right
      exact_mod_cast h
    · left
      exact_mod_cast h
  by_cases hc : 2 ^ a < 2 * r ∨ (2 * r = 2 ^ a ∧ q % 2 = 1)
  · -- rounded up
    have h2 : ((2 ^ a : Nat) : ℚ) ≤ 2 * (r : ℚ) := by
      have : 2 ^ a ≤ 2 * r := by omega
      exact_mod_cast this
    have herr : abs (((q : ℚ) + 1) * ((2 ^ a : Nat) : ℚ) - abs (i : ℚ)) ≤ (r : ℚ) := by
      rw [hN]
      have hl : ((q : ℚ) + 1) * ((2 ^ a : Nat) : ℚ) - (((2 ^ a : Nat) : ℚ) * (q : ℚ) + (r : ℚ)) =
          ((2 ^ a : Nat) : ℚ) - (r : ℚ) := by ring
      rw [hl, abs_of_nonneg (sub_nonneg.mpr hRP)]
      linarith
    have hnear : ∀ (k : Nat) (g : Int), k < 2 ^ 24 →
        abs (((q : ℚ) + 1) * ((2 ^ a : Nat) : ℚ) - abs (i : ℚ)) ≤
          abs ((k : ℚ) * (2 : ℚ) ^ g - abs (i : ℚ)) := by
      intro k g hk
      rcases CFloat.candidate_cases k g a hk with ⟨K, hK⟩ | hfar
      · rw [hK, hN]
        exact CFloat.near_mult_up _ _ _ _ hRP hP h2 (hcases K)
      · exact CFloat.near_below _ _ _ _ (le_trans hfar hbelow) herr
    rw [if_pos hc, CFloat.pack]
    by_cases hcarry : q + 1 = 2 ^ 24
    · have hnot : ¬ (104 < (a : Int) + 1) := by omega
      rw [if_pos hcarry, if_neg hnot]
      have hval : ((2 ^ 23 : Nat) : ℚ) * (2 : ℚ) ^ ((a : Int) + 1) =
          ((q : ℚ) + 1) * ((2 ^ a : Nat) : ℚ) := by
        have hq1 : (q : ℚ) + 1 = 2 ^ 24 := by exact_mod_cast hcarry
        rw [hq1, zpow_add₀ (by norm_num : (2 : ℚ) ≠ 0), CFloat.zpow_natCast_two]
        push_cast
        ring
      refine ⟨rfl, by decide, by omega, by omega, Or.inl (le_refl _), ?_, ?_⟩
      · intro k g hk
        rw [hval]
        exact hnear k g hk
      · intro _
        decide
    · have hnot : ¬ (104 < (a : Int)) := by omega
      rw [if_neg hcarry, if_neg hnot]
      have hval : ((q + 1 : Nat) : ℚ) * (2 : ℚ) ^ (a : Int) =
          ((q : ℚ) + 1) * ((2 ^ a : Nat) : ℚ) := by
        rw [CFloat.zpow_natCast_two]
        push_cast
        ring
      refine ⟨rfl, by omega, by omega, by omega, Or.inl (by omega), ?_, ?_⟩
      · intro k g hk
        rw [hval]
        exact hnear k g hk
      · intro htie
        rw [hval, hN, CFloat.zpow_natCast_two] at htie
        have hl : ((q : ℚ) + 1) * ((2 ^ a : Nat) : ℚ) -
            (((2 ^ a : Nat) : ℚ) * (q : ℚ) + (r : ℚ)) = ((2 ^ a : Nat) : ℚ) - (r : ℚ) := by ring
        rw [hl, abs_of_nonneg (sub_nonneg.mpr hRP)] at htie
        have h3 : 2 * (r : ℚ) = ((2 ^ a : Nat) : ℚ) := by linarith
        have h4 : 2 * r = 2 ^ a := by exact_mod_cast h3
        omega
  · -- rounded down
    have h2n : 2 * r ≤ 2 ^ a := by omega
    have h2 : 2 * (r : ℚ) ≤ ((2 ^ a : Nat) : ℚ) := by exact_mod_cast h2n
    have hnot : ¬ (104 < (a : Int)) := by omega
    have hne : q ≠ 2 ^ 24 := by omega
    rw [if_neg hc, CFloat.pack, if_neg hne, if_neg hnot]
    have hval : (q : ℚ) * (2 : ℚ) ^ (a : Int) = (q : ℚ) * ((2 ^ a : Nat) : ℚ) := by
      rw [CFloat.zpow_natCast_two]
    have hl : (q : ℚ) * ((2 ^ a : Nat) : ℚ) - (((2 ^ a : Nat) : ℚ) * (q : ℚ) + (r : ℚ)) =
        -(r : ℚ) := by ring
    refine ⟨rfl, hq2, by omega, by omega, Or.inl hq, ?_, ?_⟩
    · intro k g hk
      rw [hval]
      rcases CFloat.candidate_cases k g a hk with ⟨K, hK⟩ | hfar
      · rw [hK, hN]
        exact CFloat.near_mult_down _ _ _ _ hR hP h2 (hcases K)
      · refine CFloat.near_below _ _ _ _ (le_trans hfar hbelow) ?_
        rw [hN, hl, abs_neg, abs_of_nonneg hR]
    · intro htie
      rw [hval, hN, hl, abs_neg, abs_of_nonneg hR, CFloat.zpow_natCast_two] at htie
      have h4 : 2 * r = 2 ^ a := by exact_mod_cast htie
      by_contra hodd
      exact hc (Or.inr ⟨h4, by omega⟩)

/-- The conversion `(float) i` rounds to nearest, ties to even, for every
`i` below `2^127` in magnitude, which every C `int` is. -/
theorem CFloat.ofInt_rounds (i : Int) (hi : i.natAbs < 2 ^ 127) :
    CFloat.rounds i (CFloat.ofInt i) := by
  by_cases hL : CFloat.log2 i.natAbs ≤ 23
  · exact CFloat.ofInt_rounds_small i hL
  · have hn : i.natAbs ≠ 0 := by
      intro h0
      rw [h0] at hL
      exact hL (by decide)
    obtain ⟨hl, hu⟩ := CFloat.log2_spec i.natAbs (Nat.pos_of_ne_zero hn)
    have hL2 : CFloat.log2 i.natAbs ≤ 126 := by
      by_contra hc
      have : 2 ^ 127 ≤ 2 ^ CFloat.log2 i.natAbs := Nat.pow_le_pow_right (by decide) (by omega)
      omega
    have hpos : 0 < 2 ^ (CFloat.log2 i.natAbs - 23) := Nat.pow_pos (by decide)
    have hsplit : 2 ^ 23 * 2 ^ (CFloat.log2 i.natAbs - 23) = 2 ^ CFloat.log2 i.natAbs := by
      rw [← pow_add]
      congr 1
      omega
    have hsplit2 : 2 ^ 24 * 2 ^ (CFloat.log2 i.natAbs - 23) = 2 ^ (CFloat.log2 i.natAbs + 1) := by
      rw [← pow_add]
      congr 1
      omega
    have hq : 2 ^ 23 ≤ i.natAbs / 2 ^ (CFloat.log2 i.natAbs - 23) := by
      rw [Nat.le_div_iff_mul_le hpos, hsplit]
      exact hl
    have hq2 : i.natAbs / 2 ^ (CFloat.log2 i.natAbs - 23) < 2 ^ 24 := by
      rw [Nat.div_lt_iff_lt_mul hpos, hsplit2]
      exact hu
    have hcast : ((CFloat.log2 i.natAbs : Int) - 23) =
        ((CFloat.log2 i.natAbs - 23 : Nat) : Int) := by omega
    rw [CFloat.ofInt, CFloat.round_int_large _ _ hn (by omega), hcast]
    exact CFloat.rounds_large i (CFloat.log2 i.natAbs - 23) _ _ (by omega)
      (Nat.div_add_mod _ _).symm (Nat.mod_lt _ hpos) hq hq2

theorem CFloat.sign_mul_natAbs (i : Int) :
    CFloat.sign (decide (i < 0)) * (i.natAbs : ℚ) = (i : ℚ) := by
  rw [← CFloat.abs_int_cast]
  by_cases h : i < 0
  · have h2 : (i : ℚ) < 0 := by exact_mod_cast h
    simp [CFloat.sign, h, abs_of_neg h2]
  · have h2 : (0 : ℚ) ≤ (i : ℚ) := by exact_mod_cast (not_lt.mp h)
    simp [CFloat.sign, h, abs_of_nonneg h2]

/-- The conversion `(float) i` is exact up to `2^24` in magnitude. -/
theorem CFloat.ofInt_exact (i : Int) (hi : i.natAbs ≤ 16777216) :
    CFloat.toRat (CFloat.ofInt i) = some (i : ℚ) := by
  rcases Nat.lt_or_ge i.natAbs 16777216 with hlt | hge
  · by_cases hn : i.natAbs = 0
    · have hz : i = 0 := Int.natAbs_eq_zero.mp hn
      subst hz
      simp [CFloat.ofInt, CFloat.round, CFloat.toRat]
    · obtain ⟨hl, _⟩ := CFloat.log2_spec i.natAbs (Nat.pos_of_ne_zero hn)
      have hL : CFloat.log2 i.natAbs ≤ 23 := by
        by_contra hc
        have : 2 ^ 24 ≤ 2 ^ CFloat.log2 i.natAbs := Nat.pow_le_pow_right (by decide) (by omega)
        omega
      rw [CFloat.ofInt, CFloat.round_int_small _ _ hn hL]
      simp only [CFloat.toRat, Option.some.injEq]
      have he : ((CFloat.log2 i.natAbs : Int) - 23) =
          -((23 - CFloat.log2 i.natAbs : Nat) : Int) := by omega
      rw [he, zpow_neg, CFloat.zpow_natCast_two, ← CFloat.sign_mul_natAbs i]
      have hpos : ((2 ^ (23 - CFloat.log2 i.natAbs) : Nat) : ℚ) ≠ 0 := by positivity
      push_cast
      field_simp
      ring
  · have habs : i.natAbs = 16777216 := by omega
    rcases Int.natAbs_eq i with h | h
    · have hi2 : i = 16777216 := by omega
      subst hi2
      have hv : CFloat.ofInt 16777216 = .fin false 8388608 1 := by decide
      rw [hv]
      simp only [CFloat.toRat, CFloat.sign, Option.some.injEq]
      norm_num
    · have hi2 : i = -16777216 := by omega
      subst hi2
      have hv : CFloat.ofInt (-16777216) = .fin true 8388608 1 := by decide
      rw [hv]
      simp only [CFloat.toRat, CFloat.sign, Option.some.injEq]
      norm_num

/-- C3: for every Int `i` and Float `f`, `cmp_eq` in either order is True
when `f` equals `(float) i` and False otherwise, so it is never an Error.
Equality is numeric equality of the two floating-point data, and
`(float) i` is `i` rounded to the nearest binary32 datum, ties to even,
which is `i` itself up to `2^24` in magnitude.  So `(= 1 1.0)` is True,
`(= 1 2.5)` is False, `(= 16777217 16777216.0)` is True, `(= 0 -0.0)` is
True, and an Int is equal to no NaN. -/
theorem cmp_eq_int_float (i : Int) (f : CFloat) :
    cmp_eq (.int i) (.float f) =
      (if CFloat.eq (CFloat.ofInt i) f = true then VALUE_CONST_TRUE else VALUE_CONST_FALSE) ∧
    cmp_eq (.float f) (.int i) =
      (if CFloat.eq (CFloat.ofInt i) f = true then VALUE_CONST_TRUE else VALUE_CONST_FALSE) ∧
    is_error (cmp_eq (.int i) (.float f)) = false ∧
    is_error (cmp_eq (.float f) (.int i)) = false ∧
    cmp_eq (.int i) (.float (CFloat.ofInt i)) = VALUE_CONST_TRUE ∧
    cmp_eq (.int 1) (.float (.fin false 8388608 (-23))) = VALUE_CONST_TRUE ∧
    core_eq (some (.list [.int 1, .float (.fin false 8388608 (-23))])) =
      some VALUE_CONST_TRUE ∧
    (cmp_eq (.int i) (.float f) = VALUE_CONST_TRUE ↔ CFloat.num_eq (CFloat.ofInt i) f) ∧
    (cmp_eq (.int i) (.float f) = VALUE_CONST_FALSE ↔ ¬ CFloat.num_eq (CFloat.ofInt i) f) ∧
    (cmp_eq (.float f) (.int i) = VALUE_CONST_TRUE ↔ CFloat.num_eq (CFloat.ofInt i) f) ∧
    (cmp_eq (.float f) (.int i) = VALUE_CONST_FALSE ↔ ¬ CFloat.num_eq (CFloat.ofInt i) f) ∧
    (i.natAbs < 2 ^ 127 → CFloat.rounds i (CFloat.ofInt i)) ∧
    (i.natAbs ≤ 16777216 → CFloat.toRat (CFloat.ofInt i) = some (i : ℚ)) ∧
    (i.natAbs ≤ 16777216 →
      (cmp_eq (.int i) (.float f) = VALUE_CONST_TRUE ↔ CFloat.toRat f = some (i : ℚ))) ∧
    cmp_eq (.int 1) (.float (.fin false 10485760 (-22))) = VALUE_CONST_FALSE ∧
    cmp_eq (.float (.fin false 10485760 (-22))) (.int 1) = VALUE_CONST_FALSE ∧
    cmp_eq (.int 16777217) (.float (.fin false 8388608 1)) = VALUE_CONST_TRUE ∧
    cmp_eq (.int 0) (.float (.fin true 0 (-149))) = VALUE_CONST_TRUE ∧
    cmp_eq (.int i) (.float .nan) = VALUE_CONST_FALSE ∧
    CFloat.toRat (.fin false 10485760 (-22)) = some (5 / 2 : ℚ) ∧
    CFloat.toRat (.fin false 8388608 1) = some (16777216 : ℚ) := by
  have hdef : cmp_eq (.int i) (.float f) = truth (CFloat.eq (CFloat.ofInt i) f) := by
    simp [cmp_eq]
  have hdef2 : cmp_eq (.float f) (.int i) = truth (CFloat.eq (CFloat.ofInt i) f) := by
    simp [cmp_eq]
  have htrue : ∀ c : Bool, truth c = VALUE_CONST_TRUE ↔ c = true := by
    intro c
    cases c <;> simp [truth]
  have hfalse : ∀ c : Bool, truth c = VALUE_CONST_FALSE ↔ ¬ c = true := by
    intro c
    cases c <;> simp [truth]
  refine ⟨?_, ?_, ?_, ?_, ?_, rfl, rfl, ?_, ?_, ?_, ?_, CFloat.ofInt_rounds i,
    CFloat.ofInt_exact i, ?_, rfl, rfl, rfl, rfl, ?_, ?_, ?_⟩
  · simp [cmp_eq, truth]
  · simp [cmp_eq, truth]
  · cases h : CFloat.eq (CFloat.ofInt i) f <;> simp [cmp_eq, truth, h, is_error]
  · cases h : CFloat.eq (CFloat.ofInt i) f <;> simp [cmp_eq, truth, h, is_error]
  · simp [cmp_eq, truth, CFloat.eq_ofInt_self]
  · rw [hdef, htrue, CFloat.eq_iff_num_eq]
  · rw [hdef, hfalse, CFloat.eq_iff_num_eq]
  · rw [hdef2, htrue, CFloat.eq_iff_num_eq]
  · rw [hdef2, hfalse, CFloat.eq_iff_num_eq]
  · intro hi
    rw [hdef, htrue, CFloat.eq_iff_num_eq]
    have hex := CFloat.ofInt_exact i hi
    cases hx : CFloat.ofInt i with
    | nan => rw [hx] at hex; simp [CFloat.toRat] at hex
    | inf s => rw [hx] at hex; simp [CFloat.toRat] at hex
    | fin s m e =>
      rw [hx] at hex
      simp only [CFloat.toRat, Option.some.injEq] at hex
      cases f with
      | nan => simp [CFloat.num_eq, CFloat.toRat]
      | inf t => simp [CFloat.num_eq, CFloat.toRat]
      | fin t n g =>
        simp only [CFloat.num_eq, CFloat.toRat, Option.some.injEq]
        rw [hex]
        exact eq_comm
  · have hnan : CFloat.eq (CFloat.ofInt i) .nan = false := by
      cases CFloat.ofInt i <;> simp [CFloat.eq]
    simp [cmp_eq, truth, hnan]
  · simp only [CFloat.toRat, CFloat.sign, Option.some.injEq]
    norm_num
  · simp only [CFloat.toRat, CFloat.sign, Option.some.injEq]
    norm_num

/-- Witness of C3: the conversion of 16777217 rounds to nearest, ties to
even. -/
theorem cmp_eq_int_float_witness : CFloat.rounds 16777217 (CFloat.ofInt 16777217) :=
  (cmp_eq_int_float 16777217 .nan).2.2.2.2.2.2.2.2.2.2.2.1 (by decide)

/-- C4: when `a` or `b` is an Error value, `cmp_eq a b` is an Error. -/
theorem cmp_eq_error (a b : Value) (h : is_error a = true ∨ is_error b = true) :
    is_error (cmp_eq a b) = true := by
  cases a <;> cases b <;> simp [is_error] at h <;> simp [cmp_eq, is_error, value_make_error]

/-- Witness of C4: two Errors compared. -/
theorem cmp_eq_error_witness :
    is_error (cmp_eq (.error "x") (.error "x")) = true :=
  cmp_eq_error (.error "x") (.error "x") (Or.inl rfl)


theorem strcmp_cons_cons (a b : Nat) (as bs : List Nat) :
    strcmp (a :: as) (b :: bs) =
      if a ≠ b then (a : Int) - (b : Int) else if a = 0 then 0 else strcmp as bs := by
  rw [strcmp]

theorem lex_cons_iff (a b : Nat) (as bs : List Nat) :
    lex_lt (a :: as) (b :: bs) ↔ a < b ∨ (a = b ∧ lex_lt as bs) := by
  constructor
  · intro h
    cases h with
    | rel hab => exact Or.inl hab
    | cons h3 => exact Or.inr ⟨rfl, h3⟩
  · rintro (h | ⟨rfl, h⟩)
    · exact List.Lex.rel h
    · exact List.Lex.cons h

theorem strcmp_neg_iff (s : List Nat) : ∀ t : List Nat,
    (∀ x ∈ s, x ≠ 0) → (∀ x ∈ t, x ≠ 0) → (strcmp s t < 0 ↔ lex_lt s t) := by
  induction s with
  | nil =>
    intro t _ ht
    cases t with
    | nil =>
      simp only [strcmp, lt_self_iff_false, false_iff]
      intro h; cases h
    | cons b bs =>
      have hb : b ≠ 0 := ht b (by simp)
      simp only [strcmp]
      constructor
      · intro _; exact List.Lex.nil
      · intro _; omega
  | cons a as ih =>
    intro t hs ht
    cases t with
    | nil =>
      simp only [strcmp]
      constructor
      · intro h; omega
      · intro h; cases h
    | cons b bs =>
      have ha : a ≠ 0 := hs a (by simp)
      rw [strcmp_cons_cons, lex_cons_iff]
      by_cases hab : a = b
      · subst hab
        simp only [ne_eq, not_true_eq_false, if_false, if_neg ha, lt_self_iff_false, true_and,
          false_or]
        exact ih bs (fun x hx => hs x (by simp [hx])) (fun x hx => ht x (by simp [hx]))
      · simp only [ne_eq, hab, not_false_eq_true, if_true, false_and, or_false]
        omega

theorem strcmp_pos_iff (s : List Nat) : ∀ t : List Nat,
    (∀ x ∈ s, x ≠ 0) → (∀ x ∈ t, x ≠ 0) → (0 < strcmp s t ↔ lex_lt t s) := by
  induction s with
  | nil =>
    intro t _ ht
    cases t with
    | nil =>
      simp only [strcmp, lt_self_iff_false, false_iff]
      intro h; cases h
    | cons b bs =>
      simp only [strcmp]
      constructor
      · intro h; omega
      · intro h; cases h
  | cons a as ih =>
    intro t hs ht
    have ha : a ≠ 0 := hs a (by simp)
    cases t with
    | nil =>
      simp only [strcmp]
      constructor
      · intro _; exact List.Lex.nil
      · intro _; omega
    | cons b bs =>
      rw [strcmp_cons_cons, lex_cons_iff]
      by_cases hab : a = b
      · subst hab
        simp only [ne_eq, not_true_eq_false, if_false, if_neg ha, lt_self_iff_false, true_and,
          false_or]
        exact ih bs (fun x hx => hs x (by simp [hx])) (fun x hx => ht x (by simp [hx]))
      · have hba : ¬ b = a := fun h => hab h.symm
        simp only [ne_eq, hab, not_false_eq_true, if_true, hba, false_and, or_false]
        omega

theorem strcmp_zero_iff (s : List Nat) : ∀ t : List Nat,
    (∀ x ∈ s, x ≠ 0) → (∀ x ∈ t, x ≠ 0) → (strcmp s t = 0 ↔ s = t) := by
  induction s with
  | nil =>
    intro t _ ht
    cases t with
    | nil => simp [strcmp]
    | cons b bs =>
      have hb : b ≠ 0 := ht b (by simp)
      simp only [strcmp]
      constructor
      · intro h; omega
      · intro h; cases h
  | cons a as ih =>
    intro t hs ht
    have ha : a ≠ 0 := hs a (by simp)
    cases t with
    | nil =>
      simp only [strcmp]
      constructor
      · intro h; omega
      · intro h; cases h
    | cons b bs =>
      rw [strcmp_cons_cons]
      by_cases hab : a = b
      · subst hab
        simp only [ne_eq, not_true_eq_false, if_false, if_neg ha, List.cons.injEq, true_and]
        exact ih bs (fun x hx => hs x (by simp [hx])) (fun x hx => ht x (by simp [hx]))
      · simp only [ne_eq, hab, not_false_eq_true, if_true, List.cons.injEq, false_and, iff_false]
        omega

theorem decides_truth (q p : Prop) [Decidable q] (h : q ↔ p) : decides (truth (decide q)) p := by
  constructor
  · intro hp
    simp [truth, h.mpr hp]
  · intro hp
    have : ¬ q := fun hq => hp (h.mp hq)
    simp [truth, this]


/-- C5: when `a` or `b` is Nil, a Bool, an Error, a List or a function, each
of the pairwise orderings `<`, `<=`, `>`, `>=` of `(a, b)` is an Error;
`(< true false)` is an Error. -/
theorem cmp_order_unorderable (a b : Value)
    (h : unorderable a = true ∨ unorderable b = true) :
    is_error (cmp_lt a b) = true ∧ is_error (cmp_leq a b) = true ∧
    is_error (cmp_gt a b) = true ∧ is_error (cmp_geq a b) = true ∧
    core_lt (some (.list [.bool true, .bool false])) =
      some (.error "Cannot order BOOLEAN values") := by
  refine ⟨?_, ?_, ?_, ?_, rfl⟩ <;>
    cases a <;> cases b <;> simp [unorderable] at h <;>
    simp [cmp_lt, cmp_leq, cmp_gt, cmp_geq, is_error, value_make_error]

/-- Witness of C5: a Bool against an Int. -/
theorem cmp_order_unorderable_witness :
    is_error (cmp_lt (.bool true) (.int 3)) = true :=
  (cmp_order_unorderable (.bool true) (.int 3) (Or.inl rfl)).1

/-- C6: on two Ints the pairwise orderings answer by the order of the
integers; on two Strings, and on two Symbols, they answer by the byte-wise
lexicographic order of the contents (which, as in every C string, hold no
NUL byte); none of these is an Error, and `(< "a" "b")` is True. -/
theorem cmp_order_atoms :
    (∀ i j : Int,
      decides (cmp_lt (.int i) (.int j)) (i < j) ∧ decides (cmp_leq (.int i) (.int j)) (i ≤ j) ∧
      decides (cmp_gt (.int i) (.int j)) (j < i) ∧ decides (cmp_geq (.int i) (.int j)) (j ≤ i)) ∧
    (∀ s t : List Nat, (∀ x ∈ s, x ≠ 0) → (∀ x ∈ t, x ≠ 0) →
      decides (cmp_lt (.string s) (.string t)) (lex_lt s t) ∧
      decides (cmp_leq (.string s) (.string t)) (lex_lt s t ∨ s = t) ∧
      decides (cmp_gt (.string s) (.string t)) (lex_lt t s) ∧
      decides (cmp_geq (.string s) (.string t)) (lex_lt t s ∨ s = t) ∧
      decides (cmp_lt (.symbol s) (.symbol t)) (lex_lt s t) ∧
      decides (cmp_leq (.symbol s) (.symbol t)) (lex_lt s t ∨ s = t) ∧
      decides (cmp_gt (.symbol s) (.symbol t)) (lex_lt t s) ∧
      decides (cmp_geq (.symbol s) (.symbol t)) (lex_lt t s ∨ s = t)) ∧
    core_lt (some (.list [.string [97], .string [98]])) = some VALUE_CONST_TRUE := by
  refine ⟨?_, ?_, rfl⟩
  · intro i j
    simp only [cmp_lt, cmp_leq, cmp_gt, cmp_geq]
    exact ⟨decides_truth _ _ Iff.rfl, decides_truth _ _ Iff.rfl, decides_truth _ _ Iff.rfl,
      decides_truth _ _ Iff.rfl⟩
  · intro s t hs ht
    have hneg := strcmp_neg_iff s t hs ht
    have hpos := strcmp_pos_iff s t hs ht
    have hzero := strcmp_zero_iff s t hs ht
    have hle : strcmp s t ≤ 0 ↔ lex_lt s t ∨ s = t := by
      rw [← hneg, ← hzero]
      omega
    have hge : strcmp s t ≥ 0 ↔ lex_lt t s ∨ s = t := by
      rw [← hpos, ← hzero]
      omega
    simp only [cmp_lt, cmp_leq, cmp_gt, cmp_geq]
    exact ⟨decides_truth _ _ hneg, decides_truth _ _ hle, decides_truth _ _ hpos,
      decides_truth _ _ hge, decides_truth _ _ hneg, decides_truth _ _ hle,
      decides_truth _ _ hpos, decides_truth _ _ hge⟩

/-- Witness of C6: the strings "ab" and "b". -/
theorem cmp_order_atoms_witness :
    decides (cmp_lt (.string [97, 98]) (.string [98])) (lex_lt [97, 98] [98]) :=
  (cmp_order_atoms.2.1 [97, 98] [98] (by decide) (by decide)).1


/-! ## Accumulation (C7 to C9) -/

theorem core_acc_nil (accumulate : CFloat → CFloat → CFloat) :
    core_acc (some (.list [])) accumulate =
      some (.error "Require at least one argument: expected at least 1, got 0") := rfl

theorem core_acc_cons (accumulate : CFloat → CFloat → CFloat) (v : Value)
    (tail : List Value) :
    core_acc (some (.list (v :: tail))) accumulate =
      some (match v with
        | .float f => core_acc_loop accumulate (CFloat.cast f) false tail
        | .int i => core_acc_loop accumulate (CFloat.ofInt i) true tail
        | _ => value_make_error "Non-numeric argument in accumulation") := by
  cases v <;> simp [core_acc, CHECK_ARGLIST, REQUIRE_LIST_CARDINALITY_GE]

/-- The loop ends in an Error exactly when some remaining argument is
neither an Int nor a Float. -/
theorem core_acc_loop_error_iff (accumulate : CFloat → CFloat → CFloat)
    (tail : List Value) : ∀ (acc : CFloat) (all_int : Bool),
    (∃ msg : String, core_acc_loop accumulate acc all_int tail = .error msg) ↔
      ∃ v ∈ tail, is_int v = false ∧ is_float v = false := by
  induction tail with
  | nil =>
    intro acc all_int
    cases all_int <;> simp [core_acc_loop]
  | cons v tail ih =>
    intro acc all_int
    cases v <;>
      simp [core_acc_loop, is_int, is_float, value_make_error, ih]

/-- The loop stops at the first argument that is neither an Int nor a Float. -/
theorem core_acc_loop_first_error (accumulate : CFloat → CFloat → CFloat)
    (pre : List Value) : ∀ (acc : CFloat) (all_int : Bool) (x : Value) (rest : List Value),
    (∀ v ∈ pre, is_int v = true ∨ is_float v = true) →
    is_int x = false → is_float x = false →
    core_acc_loop accumulate acc all_int (pre ++ x :: rest) =
      .error "Non-numeric argument in accumulation" := by
  induction pre with
  | nil =>
    intro acc all_int x rest _ hi hf
    cases x <;> simp [is_int, is_float] at hi hf <;> simp [core_acc_loop, value_make_error]
  | cons v pre ih =>
    intro acc all_int x rest hpre hi hf
    have hv := hpre v (by simp)
    have hrest : ∀ w ∈ pre, is_int w = true ∨ is_float w = true :=
      fun w hw => hpre w (by simp [hw])
    cases v <;> simp [is_int, is_float] at hv <;>
      simp only [List.cons_append, core_acc_loop] <;> exact ih _ _ x rest hrest hi hf

/-- Over Ints only, the loop keeps the flag and ends in an Int. -/
theorem core_acc_loop_all_int (accumulate : CFloat → CFloat → CFloat)
    (tail : List Value) : ∀ (acc : CFloat),
    (∀ v ∈ tail, is_int v = true) →
    ∃ i : Int, core_acc_loop accumulate acc true tail = .int i := by
  induction tail with
  | nil => intro acc _; exact ⟨_, rfl⟩
  | cons v tail ih =>
    intro acc h
    have hv := h v (by simp)
    have hrest : ∀ w ∈ tail, is_int w = true := fun w hw => h w (by simp [hw])
    cases v <;> simp [is_int] at hv
    simp only [core_acc_loop]
    exact ih _ hrest

/-- Over Ints and Floats, once the flag is down or a Float remains, the loop
ends in a Float. -/
theorem core_acc_loop_float (accumulate : CFloat → CFloat → CFloat)
    (tail : List Value) : ∀ (acc : CFloat) (all_int : Bool),
    (∀ v ∈ tail, is_int v = true ∨ is_float v = true) →
    (all_int = false ∨ ∃ v ∈ tail, is_float v = true) →
    ∃ x : CFloat, core_acc_loop accumulate acc all_int tail = .float x := by
  induction tail with
  | nil =>
    intro acc all_int _ h
    rcases h with h | ⟨v, hv, _⟩
    · subst h; exact ⟨_, rfl⟩
    · simp at hv
  | cons v tail ih =>
    intro acc all_int hnum h
    have hv := hnum v (by simp)
    have hrest : ∀ w ∈ tail, is_int w = true ∨ is_float w = true :=
      fun w hw => hnum w (by simp [hw])
    cases v <;> simp [is_int, is_float] at hv
    case int i =>
      simp only [core_acc_loop]
      refine ih _ _ hrest ?_
      rcases h with h | ⟨w, hw, hwf⟩
      · exact Or.inl h
      · simp only [List.mem_cons] at hw
        rcases hw with rfl | hw
        · simp [is_float] at hwf
        · exact Or.inr ⟨w, hw, hwf⟩
    case float f =>
      simp only [core_acc_loop]
      exact ih _ _ hrest (Or.inl rfl)


/-- C7: `(+ 1 2 3)` is Int 6, but `+` on Ints is not the exact integer sum:
the sum is accumulated in a `float`, so `(+ 16777216 1)` is Int 16777216 and
`(+ 16777217)` is Int 16777216. -/
theorem core_add_inexact :
    core_add (some (.list [.int 1, .int 2, .int 3])) = some (.int 6) ∧
    core_add (some (.list [.int 16777216, .int 1])) = some (.int 16777216) ∧
    core_add (some (.list [.int 16777217])) = some (.int 16777216) ∧
    (16777216 : Int) + 1 ≠ 16777216 := by
  refine ⟨rfl, rfl, rfl, by decide⟩

/-- The general form of C8 over any accumulator. -/
theorem core_acc_type (accumulate : CFloat → CFloat → CFloat) (vs : List Value)
    (hne : vs ≠ []) (hnum : ∀ v ∈ vs, is_int v = true ∨ is_float v = true) :
    ((∃ v ∈ vs, is_float v = true) →
      ∃ x : CFloat, core_acc (some (.list vs)) accumulate = some (.float x)) ∧
    ((∀ v ∈ vs, is_int v = true) →
      ∃ i : Int, core_acc (some (.list vs)) accumulate = some (.int i)) := by
  cases vs with
  | nil => exact (hne rfl).elim
  | cons v tail =>
    have hv := hnum v (by simp)
    have hrest : ∀ w ∈ tail, is_int w = true ∨ is_float w = true :=
      fun w hw => hnum w (by simp [hw])
    rw [core_acc_cons]
    constructor
    · rintro ⟨w, hw, hwf⟩
      cases v <;> simp [is_int, is_float] at hv
      case int i =>
        simp only [List.mem_cons] at hw
        rcases hw with rfl | hw
        · simp [is_float] at hwf
        · obtain ⟨x, hx⟩ := core_acc_loop_float accumulate tail (CFloat.ofInt i) true hrest
            (Or.inr ⟨w, hw, hwf⟩)
          exact ⟨x, by simp [hx]⟩
      case float f =>
        obtain ⟨x, hx⟩ :=
          core_acc_loop_float accumulate tail (CFloat.cast f) false hrest (Or.inl rfl)
        exact ⟨x, by simp [hx]⟩
    · intro hall
      have hvi := hall v (by simp)
      cases v <;> simp [is_int] at hvi
      case int i =>
        obtain ⟨k, hk⟩ := core_acc_loop_all_int accumulate tail (CFloat.ofInt i)
          (fun w hw => hall w (by simp [hw]))
        exact ⟨k, by simp [hk]⟩

/-- C8: on a non-empty argument list of Ints and Floats, each of `+`, `-`,
`*`, `/` returns a Float when some argument is a Float and an Int when every
argument is an Int. -/
theorem core_arith_result_type (op : Option Value → Option Value)
    (hop : op ∈ [core_add, core_sub, core_mul, core_div]) (vs : List Value)
    (hne : vs ≠ []) (hnum : ∀ v ∈ vs, is_int v = true ∨ is_float v = true) :
    ((∃ v ∈ vs, is_float v = true) → ∃ x : CFloat, op (some (.list vs)) = some (.float x)) ∧
    ((∀ v ∈ vs, is_int v = true) → ∃ i : Int, op (some (.list vs)) = some (.int i)) := by
  simp only [List.mem_cons, List.mem_singleton, List.not_mem_nil, or_false] at hop
  rcases hop with rfl | rfl | rfl | rfl
  · exact core_acc_type acc_add vs hne hnum
  · exact core_acc_type acc_sub vs hne hnum
  · exact core_acc_type acc_mul vs hne hnum
  · exact core_acc_type acc_div vs hne hnum

/-- Witness of C8: `(/ 1 2.0)` is a Float. -/
theorem core_arith_result_type_witness :
    ∃ x : CFloat,
      core_div (some (.list [.int 1, .float (.fin false 8388608 (-22))])) = some (.float x) :=
  (core_arith_result_type core_div (by simp) [.int 1, .float (.fin false 8388608 (-22))]
    (by simp) (by simp [is_int, is_float])).1
    ⟨.float (.fin false 8388608 (-22)), by simp, rfl⟩

/-- The general form of C9 over any accumulator. -/
theorem core_acc_error (accumulate : CFloat → CFloat → CFloat) (vs : List Value) :
    ((∃ msg : String, core_acc (some (.list vs)) accumulate = some (.error msg)) ↔
      vs = [] ∨ ∃ v ∈ vs, is_int v = false ∧ is_float v = false) ∧
    (∀ (pre : List Value) (x : Value) (rest : List Value), vs = pre ++ x :: rest →
      (∀ v ∈ pre, is_int v = true ∨ is_float v = true) →
      is_int x = false → is_float x = false →
      core_acc (some (.list vs)) accumulate =
        some (.error "Non-numeric argument in accumulation")) := by
  constructor
  · cases vs with
    | nil => simp [core_acc_nil]
    | cons v tail =>
      rw [core_acc_cons]
      cases v <;>
        simp [is_int, is_float, value_make_error, core_acc_loop_error_iff]
  · intro pre x rest hvs hpre hi hf
    subst hvs
    cases pre with
    | nil =>
      rw [List.nil_append, core_acc_cons]
      cases x <;> simp [is_int, is_float] at hi hf <;> simp [value_make_error]
    | cons v pre =>
      have hv := hpre v (by simp)
      have hrest : ∀ w ∈ pre, is_int w = true ∨ is_float w = true :=
        fun w hw => hpre w (by simp [hw])
      rw [List.cons_append, core_acc_cons]
      cases v <;> simp [is_int, is_float] at hv <;>
        simp [core_acc_loop_first_error accumulate pre _ _ x rest hrest hi hf]

/-- C9: each of `+`, `-`, `*`, `/` returns an Error exactly when the argument
list is empty or holds an argument that is neither an Int nor a Float; the
Error comes at the first such argument, whatever follows it. -/
theorem core_arith_error_iff (op : Option Value → Option Value)
    (hop : op ∈ [core_add, core_sub, core_mul, core_div]) (vs : List Value) :
    ((∃ msg : String, op (some (.list vs)) = some (.error msg)) ↔
      vs = [] ∨ ∃ v ∈ vs, is_int v = false ∧ is_float v = false) ∧
    (∀ (pre : List Value) (x : Value) (rest : List Value), vs = pre ++ x :: rest →
      (∀ v ∈ pre, is_int v = true ∨ is_float v = true) →
      is_int x = false → is_float x = false →
      op (some (.list vs)) = some (.error "Non-numeric argument in accumulation")) := by
  simp only [List.mem_cons, List.mem_singleton, List.not_mem_nil, or_false] at hop
  rcases hop with rfl | rfl | rfl | rfl
  · exact core_acc_error acc_add vs
  · exact core_acc_error acc_sub vs
  · exact core_acc_error acc_mul vs
  · exact core_acc_error acc_div vs

/-- Witness of C9: `(* 2 nil 3.0 true)` stops at `nil`. -/
theorem core_arith_error_iff_witness :
    core_mul (some (.list [.int 2, .nil, .float (.fin false 12582912 (-22)), .bool true])) =
      some (.error "Non-numeric argument in accumulation") :=
  (core_arith_error_iff core_mul (by simp)
    [.int 2, .nil, .float (.fin false 12582912 (-22)), .bool true]).2
    [.int 2] .nil [.float (.fin false 12582912 (-22)), .bool true] rfl
    (by simp [is_int]) rfl rfl


/-! ## The spreading call (C10) -/

theorem foldl_list_conj (l : List Value) : ∀ acc : List Value,
    l.foldl list_conj acc = acc ++ l := by
  induction l with
  | nil => intro acc; simp
  | cons x l ih => intro acc; simp [List.foldl_cons, ih, list_conj]

theorem list_nth_last (pre : List Value) (x : Value) :
    list_nth (pre ++ [x]) ((pre ++ [x]).length - 1) = some x := by
  simp [list_nth]

theorem core_apply_cons {Env : Type} (ap : Value → Value → ApplyResult Env)
    (ev : Value → Option Env → Option Value) (f x : Value) (pre : List Value) :
    core_apply ap ev (some (.list (f :: (pre ++ [x])))) =
      force ev (ap f
        (match x with
          | .list last => .list (pre ++ last)
          | _ => .list (pre ++ [x]))) := by
  have hlen : ¬ (pre.length + 1 + 1 < 2) := by omega
  simp only [core_apply, CHECK_ARGLIST, REQUIRE_LIST_CARDINALITY_GE, list_nth_last]
  cases x <;> simp [force, foldl_list_conj, list_new, hlen]

/-- C10: `apply` given a callable `f` and the further arguments `pre`
followed by a last argument calls `f` on `pre` followed by the elements of
the last argument when that is a List (lists within `pre` stay as they are),
and on the arguments unchanged when it is not; the value is that of the
call, a pending continuation being forced with `eval`.  Given the callable
alone it is an Error.  `(apply + 1 2 (list 3 4))` is Int 10 and
`(apply + 1 2 3)` is Int 6. -/
theorem core_apply_spread {Env : Type} (ap : Value → Value → ApplyResult Env)
    (ev : Value → Option Env → Option Value) (f : Value) (pre : List Value) :
    (∀ xs : List Value,
      core_apply ap ev (some (.list (f :: (pre ++ [.list xs])))) =
        force ev (ap f (.list (pre ++ xs)))) ∧
    (∀ x : Value, is_list x = false →
      core_apply ap ev (some (.list (f :: (pre ++ [x])))) =
        force ev (ap f (.list (pre ++ [x])))) ∧
    core_apply ap ev (some (.list [f])) =
      some (.error "APPLY requires at least two arguments: expected at least 2, got 1") ∧
    (∀ call_fn : Nat → Value → ApplyResult Env,
      core_apply (apply core_native call_fn) ev
        (some (.list [.builtin_fn 0, .int 1, .int 2, .list [.int 3, .int 4]])) =
          some (.int 10) ∧
      core_apply (apply core_native call_fn) ev
        (some (.list [.builtin_fn 0, .int 1, .int 2, .int 3])) = some (.int 6)) := by
  refine ⟨?_, ?_, ?_, ?_⟩
  · intro xs
    rw [core_apply_cons]
  · intro x hx
    rw [core_apply_cons]
    cases x <;> simp [is_list] at hx <;> rfl
  · simp only [core_apply, CHECK_ARGLIST, REQUIRE_LIST_CARDINALITY_GE, value_make_error,
      List.length_singleton]
    rfl
  · intro call_fn
    exact ⟨rfl, rfl⟩

/-- Witness of C10: `(apply f (list 1) 2)` passes the list `(1)` as it is. -/
theorem core_apply_spread_witness :
    core_apply (apply core_native (fun _ _ => (⟨none, none, none⟩ : ApplyResult Unit)))
        (fun _ _ => none) (some (.list (.builtin_fn 0 :: ([.list [.int 1]] ++ [.int 2])))) =
      force (fun _ _ => none)
        (apply core_native (fun _ _ => (⟨none, none, none⟩ : ApplyResult Unit)) (.builtin_fn 0)
          (.list ([.list [.int 1]] ++ [.int 2]))) :=
  (core_apply_spread (apply core_native (fun _ _ => (⟨none, none, none⟩ : ApplyResult Unit)))
    (fun _ _ => none) (.builtin_fn 0) [.list [.int 1]]).2.1 (.int 2) rfl

/-! ## The builtin `map` (C11, C12) -/

theorem core_map_two {Env : Type} (names : ValueType → String)
    (ap : Value → Value → ApplyResult Env) (ev : Value → Option Env → Option Value)
    (f : Value) (xs : List Value) :
    core_map names ap ev (some (.list [f, .list xs])) = core_map_loop ap ev f [] xs := by
  simp [core_map, CHECK_ARGLIST, REQUIRE_LIST_CARDINALITY, REQUIRE_VALUE_TYPE, list_nth,
    Value.type, list_new]

theorem core_map_loop_cons {Env : Type} (ap : Value → Value → ApplyResult Env)
    (ev : Value → Option Env → Option Value) (f x : Value) (mapped rest : List Value) :
    core_map_loop ap ev f mapped (x :: rest) =
      if is_error_ptr (ap f (value_make_list x)).result = true then
        (ap f (value_make_list x)).result
      else
        match force ev (ap f (value_make_list x)) with
        | some v => core_map_loop ap ev f (list_conj mapped v) rest
        | none => none := by
  rw [core_map_loop]
  rfl

/-- The loop on elements whose applications are no direct Errors and force
to the values `rs` ends in the list built so far followed by `rs`. -/
theorem core_map_loop_ok {Env : Type} (ap : Value → Value → ApplyResult Env)
    (ev : Value → Option Env → Option Value) (f : Value) (xs : List Value) :
    ∀ (rs mapped : List Value),
      List.Forall₂ (fun x r => is_error_ptr (ap f (value_make_list x)).result = false ∧
        force ev (ap f (value_make_list x)) = some r) xs rs →
      core_map_loop ap ev f mapped xs = some (.list (mapped ++ rs)) := by
  induction xs with
  | nil =>
    intro rs mapped h
    cases h
    simp [core_map_loop]
  | cons x xs ih =>
    intro rs mapped h
    cases h with
    | cons hx hrest =>
      rename_i r rs
      rw [core_map_loop_cons, hx.2]
      simp only [hx.1, Bool.false_eq_true, if_false]
      rw [ih rs (list_conj mapped r) hrest]
      simp [list_conj]

/-- C11: when no application of `f` to an element is an Error, `map` returns
the List of the values of the applications, one for each element and in the
order of the elements; the value of an application is that of `eval` on the
pending continuation when `apply` left one and the result of `apply`
otherwise. -/
theorem core_map_values {Env : Type} (names : ValueType → String)
    (ap : Value → Value → ApplyResult Env) (ev : Value → Option Env → Option Value)
    (f : Value) (xs rs : List Value)
    (h : List.Forall₂ (fun x r => is_error_ptr (ap f (value_make_list x)).result = false ∧
        force ev (ap f (value_make_list x)) = some r) xs rs) :
    core_map names ap ev (some (.list [f, .list xs])) = some (.list rs) ∧
    rs.length = xs.length ∧
    (∀ (i : Nat) (x : Value), xs[i]? = some x →
      (rs[i]?) = force ev (ap f (.list [x]))) := by
  refine ⟨?_, h.length_eq.symm, ?_⟩
  · rw [core_map_two, core_map_loop_ok ap ev f xs rs [] h]
    simp
  · intro i x hx
    clear names
    induction h generalizing i with
    | nil => simp at hx
    | cons hhead _ ih =>
      cases i with
      | zero =>
        simp only [List.getElem?_cons_zero, Option.some.injEq] at hx
        subst hx
        simpa [value_make_list] using hhead.2.symm
      | succ i =>
        simp only [List.getElem?_cons_succ] at hx ⊢
        exact ih i hx

/-- Witness of C11: `(map + (list 1 2))` is the list `(1 2)`. -/
theorem core_map_values_witness :
    core_map (fun _ => "") (apply core_native (fun _ _ => (⟨none, none, none⟩ : ApplyResult Unit)))
      (fun _ _ => none) (some (.list [.builtin_fn 0, .list [.int 1, .int 2]])) =
      some (.list [.int 1, .int 2]) :=
  (core_map_values (fun _ => "")
    (apply core_native (fun _ _ => (⟨none, none, none⟩ : ApplyResult Unit)))
    (fun _ _ => none) (.builtin_fn 0) [.int 1, .int 2] [.int 1, .int 2]
    (List.Forall₂.cons ⟨rfl, rfl⟩ (List.Forall₂.cons ⟨rfl, rfl⟩ List.Forall₂.nil))).1

/-- The loop returns a direct Error of `apply` as it is, whatever follows
the element. -/
theorem core_map_loop_direct_error {Env : Type} (ap : Value → Value → ApplyResult Env)
    (ev : Value → Option Env → Option Value) (f x : Value) (mapped rest : List Value)
    (h : is_error_ptr (ap f (value_make_list x)).result = true) :
    core_map_loop ap ev f mapped (x :: rest) = (ap f (value_make_list x)).result := by
  rw [core_map_loop_cons, if_pos h]

/-- The loop stores an Error that comes from forcing the continuation and
goes on with the next element. -/
theorem core_map_loop_forced_error {Env : Type} (ap : Value → Value → ApplyResult Env)
    (ev : Value → Option Env → Option Value) (f x : Value) (mapped rest : List Value)
    (msg : String) (h : is_error_ptr (ap f (value_make_list x)).result = false)
    (hf : force ev (ap f (value_make_list x)) = some (.error msg)) :
    core_map_loop ap ev f mapped (x :: rest) =
      core_map_loop ap ev f (mapped ++ [.error msg]) rest := by
  rw [core_map_loop_cons, hf]
  simp [h, list_conj]

/-- C12: an Error that `apply` returns directly is returned by `map` as it
is, as `(map < (list 1 2))` shows; but an Error that comes from forcing the
pending continuation of a composite function is stored in the List: with an
`eval` that gives the Error `e`, `map` over `(1 2)` is the List `(e e)`. -/
theorem core_map_forced_error_kept :
    core_map (fun _ => "")
      (apply core_native (fun _ _ => (⟨none, none, none⟩ : ApplyResult Unit)))
      (fun _ _ => none) (some (.list [.builtin_fn 5, .list [.int 1, .int 2]])) =
      some (.error "Require at least two values to compare: expected at least 2, got 1") ∧
    core_map (fun _ => "")
      (apply core_native
        (fun _ _ => (⟨none, some (.list [.symbol [60], .symbol [120], .nil]), some ()⟩ :
          ApplyResult Unit)))
      (fun _ _ => some (.error "Cannot compare incompatible types"))
      (some (.list [.fn 0, .list [.int 1, .int 2]])) =
      some (.list [.error "Cannot compare incompatible types",
        .error "Cannot compare incompatible types"]) := by
  exact ⟨rfl, rfl⟩

/-! ## The list builtins (C13 to C15) -/

theorem core_concat_loop_lists (names : ValueType → String) (ls : List (List Value)) :
    ∀ acc : List Value,
      core_concat_loop names acc (ls.map Value.list) = .list (acc ++ ls.flatten) := by
  induction ls with
  | nil => intro acc; simp [core_concat_loop]
  | cons l ls ih =>
    intro acc
    simp [core_concat_loop, REQUIRE_VALUE_TYPE, Value.type, foldl_list_conj, ih]

theorem core_concat_loop_error (names : ValueType → String) (args : List Value) :
    ∀ acc : List Value, (∃ v ∈ args, is_list v = false) →
      ∃ msg : String, core_concat_loop names acc args = .error msg := by
  induction args with
  | nil => intro acc h; simp at h
  | cons v rest ih =>
    intro acc h
    cases v with
    | list items =>
      have hrest : ∃ w ∈ rest, is_list w = false := by
        obtain ⟨w, hw, hwl⟩ := h
        simp only [List.mem_cons] at hw
        rcases hw with rfl | hw
        · simp [is_list] at hwl
        · exact ⟨w, hw, hwl⟩
      simpa [core_concat_loop, REQUIRE_VALUE_TYPE, Value.type] using ih _ hrest
    | _ => simp [core_concat_loop, REQUIRE_VALUE_TYPE, Value.type, value_make_error]

/-- C13: on the argument list of the Lists `l1 .. ln`, `concat` returns the
List of the elements of `l1`, then of `l2`, and so on, each in its order;
its length is the sum of the lengths; on no argument it is the empty List.
If some argument is not a List, `concat` returns an Error. -/
theorem core_concat_lists (names : ValueType → String) :
    (∀ ls : List (List Value),
      core_concat names (some (.list (ls.map Value.list))) = some (.list ls.flatten) ∧
      ls.flatten.length = (ls.map List.length).sum) ∧
    core_concat names (some (.list [])) = some (.list []) ∧
    (∀ args : List Value, (∃ v ∈ args, is_list v = false) →
      ∃ msg : String, core_concat names (some (.list args)) = some (.error msg)) := by
  refine ⟨?_, rfl, ?_⟩
  · intro ls
    refine ⟨?_, List.length_flatten ls⟩
    simp [core_concat, CHECK_ARGLIST, core_concat_loop_lists, list_new]
  · intro args h
    obtain ⟨msg, hmsg⟩ := core_concat_loop_error names args list_new h
    exact ⟨msg, by simp [core_concat, CHECK_ARGLIST, hmsg]⟩

/-- Witness of C13: `(concat (list 1) 2)` is an Error. -/
theorem core_concat_lists_witness :
    ∃ msg : String,
      core_concat (fun _ => "") (some (.list [.list [.int 1], .int 2])) = some (.error msg) :=
  (core_concat_lists (fun _ => "")).2.2 [.list [.int 1], .int 2] ⟨.int 2, by simp, rfl⟩

/-- C14: `(count l)` is the Int of the number of elements of the List `l`
(a number that an `int` holds), and `(empty? l)` is True when `l` has no
element and False otherwise; `(count (list))` is Int 0 and `(empty? (list))`
is True.  On a single argument that is not a List both return an Error, as
`(empty? 5)` does. -/
theorem core_count_empty (names : ValueType → String) :
    (∀ l : List Value, l.length ≤ 2147483647 →
      core_count names (some (.list [.list l])) = .ret (some (.int l.length))) ∧
    (∀ l : List Value,
      (l = [] → core_is_empty names (some (.list [.list l])) = some VALUE_CONST_TRUE) ∧
      (l ≠ [] → core_is_empty names (some (.list [.list l])) = some VALUE_CONST_FALSE)) ∧
    core_count names (some (.list [.list []])) = .ret (some (.int 0)) ∧
    core_is_empty names (some (.list [.list []])) = some VALUE_CONST_TRUE ∧
    (∀ v : Value, is_list v = false →
      (∃ msg : String, core_count names (some (.list [v])) = .ret (some (.error msg))) ∧
      (∃ msg : String, core_is_empty names (some (.list [v])) = some (.error msg))) ∧
    (∃ msg : String, core_is_empty names (some (.list [.int 5])) = some (.error msg)) := by
  refine ⟨?_, ?_, rfl, rfl, ?_, ⟨_, rfl⟩⟩
  · intro l hl
    simp [core_count, CHECK_ARGLIST, list_head, REQUIRE_VALUE_TYPE, Value.type, size_to_int, hl]
  · intro l
    constructor
    · intro h
      subst h
      rfl
    · intro h
      have hlen : ¬ l.length = 0 := fun hc => h (List.length_eq_zero.mp hc)
      simp [core_is_empty, CHECK_ARGLIST, REQUIRE_LIST_CARDINALITY, list_head,
        REQUIRE_VALUE_TYPE, Value.type, truth, hlen, h]
  · intro v hv
    cases v <;> simp [is_list] at hv <;>
      simp [core_count, core_is_empty, CHECK_ARGLIST, REQUIRE_LIST_CARDINALITY, list_head,
        REQUIRE_VALUE_TYPE, Value.type, value_make_error]

/-- Witness of C14: `(count (list nil nil))` is Int 2. -/
theorem core_count_empty_witness :
    core_count (fun _ => "") (some (.list [.list [.nil, .nil]])) = .ret (some (.int 2)) :=
  (core_count_empty (fun _ => "")).1 [.nil, .nil] (by decide)

/-- C15: `count` on the empty argument list does not return an Error: it
reads the `type` field of the missing first argument, a null pointer, where
`empty?` returns its cardinality Error. -/
theorem core_count_no_arity_check (names : ValueType → String) :
    core_count names (some (.list [])) = .fault ∧
    core_is_empty names (some (.list [])) =
      some (.error "empty? requires exactly one parameter: expected 1, got 0") := by
  exact ⟨rfl, rfl⟩

/-! ## Rendering (C17, C18) -/

theorem str_append_length (str part : List Nat) (n : Nat) :
    str_append str n part part.length = str ++ part := by
  simp [str_append]

theorem dec_value_append (xs : List Nat) (d : Nat) :
    dec_value (xs ++ [d]) = dec_value xs * 10 + (d - 48) := by
  simp [dec_value]

/-- The digits that the loop puts in front of `ds` are decimal digits, at
least one, and stand for `n`. -/
theorem dec_loop_spec (fuel : Nat) : ∀ (n : Nat) (ds : List Nat), n < fuel →
    ∃ xs : List Nat, dec_loop fuel n ds = xs ++ ds ∧ dec_value xs = n ∧
      (∀ d ∈ xs, 48 ≤ d ∧ d ≤ 57) ∧ xs ≠ [] := by
  induction fuel with
  | zero => intro n ds h; omega
  | succ fuel ih =>
    intro n ds h
    rw [dec_loop]
    by_cases h0 : n / 10 = 0
    · rw [if_pos h0]
      refine ⟨[48 + n % 10], by simp, ?_, ?_, by simp⟩
      · simp only [dec_value, List.foldl_cons, List.foldl_nil]
        omega
      · intro d hd
        simp only [List.mem_singleton] at hd
        omega
    · rw [if_neg h0]
      obtain ⟨xs, hxs, hval, hdig, _⟩ := ih (n / 10) ((48 + n % 10) :: ds) (by omega)
      refine ⟨xs ++ [48 + n % 10], by simp [hxs], ?_, ?_, by simp⟩
      · rw [dec_value_append, hval]
        omega
      · intro d hd
        simp only [List.mem_append, List.mem_singleton] at hd
        rcases hd with hd | hd
        · exact hdig d hd
        · omega

theorem fmt_u_spec (n : Nat) :
    dec_value (fmt_u n) = n ∧ (∀ d ∈ fmt_u n, 48 ≤ d ∧ d ≤ 57) ∧ fmt_u n ≠ [] := by
  obtain ⟨xs, hxs, hval, hdig, hne⟩ := dec_loop_spec (n + 1) n [] (Nat.lt_succ_self n)
  have h : fmt_u n = xs := by simp [fmt_u, hxs]
  rw [h]
  exact ⟨hval, hdig, hne⟩

mutual
/-- The rendering of a value does not depend on the text it is appended to. -/
theorem core_str_inner_append (pr : Printer) : ∀ (v : Value) (str : List Nat),
    core_str_inner pr str v = str ++ core_str_inner pr [] v
  | .nil, str => by simp [core_str_inner, str_append]
  | .bool b, str => by simp [core_str_inner, str_append]
  | .int i, str => by simp [core_str_inner, str_append]
  | .float f, str => by simp [core_str_inner, str_append]
  | .string s, str => by simp [core_str_inner, str_append]
  | .symbol s, str => by simp [core_str_inner, str_append]
  | .error msg, str => by simp [core_str_inner, str_append]
  | .builtin_fn p, str => by simp [core_str_inner, str_append]
  | .fn p, str => by simp [core_str_inner, str_lambda, str_append]
  | .macro_fn p, str => by simp [core_str_inner, str_lambda, str_append]
  | .list l, str => by
    have h1 := core_str_inner_loop_append pr l (str_append str str.length [40] 1)
    have h2 := core_str_inner_loop_append pr l (str_append [] 0 [40] 1)
    simp only [core_str_inner, List.length_nil]
    rw [h1, h2]
    simp [str_append]
/-- The rendering of the elements of a list does not depend on the text it
is appended to. -/
theorem core_str_inner_loop_append (pr : Printer) : ∀ (l : List Value) (str : List Nat),
    core_str_inner_loop pr str l = str ++ core_str_inner_loop pr [] l
  | [], str => by simp [core_str_inner_loop]
  | head2 :: tail2, str => by
    have h := core_str_inner_append pr head2 str
    have ht1 := core_str_inner_loop_append pr tail2
    simp only [core_str_inner_loop]
    by_cases hemp : tail2.isEmpty = true
    · simp only [hemp, if_true]
      rw [ht1 (core_str_inner pr str head2), ht1 (core_str_inner pr [] head2), h]
      simp
    · simp only [hemp, Bool.false_eq_true, if_false]
      rw [ht1 (str_append (core_str_inner pr str head2) _ [32] 1),
        ht1 (str_append (core_str_inner pr [] head2) _ [32] 1), h]
      simp [str_append]
end

/-- The elements of a list are rendered with one space between two
neighbours. -/
theorem core_str_inner_loop_intercalate (pr : Printer) (l : List Value) :
    core_str_inner_loop pr [] l = List.intercalate [32] (l.map (str_of pr)) := by
  induction l with
  | nil => simp [core_str_inner_loop, List.intercalate]
  | cons v rest ih =>
    rw [core_str_inner_loop, core_str_inner_loop_append, ih]
    cases rest with
    | nil => simp [List.intercalate, str_of]
    | cons w rest => simp [List.intercalate, str_of, str_append]

theorem str_of_list (pr : Printer) (vs : List Value) :
    str_of pr (.list vs) = [40] ++ List.intercalate [32] (vs.map (str_of pr)) ++ [41] := by
  have h := core_str_inner_loop_append pr vs (str_append [] 0 [40] 1)
  simp only [str_of, core_str_inner, List.length_nil]
  rw [h, core_str_inner_loop_intercalate]
  simp [str_append, str_of]

theorem core_str_outer_loop_append (pr : Printer) (printable : Bool) (l : List Value) :
    ∀ str : List Nat, core_str_outer_loop pr printable str l =
      str ++ (l.map (fun v => str_of pr v ++ if printable then [32] else [])).flatten := by
  induction l with
  | nil => intro str; simp [core_str_outer_loop]
  | cons v rest ih =>
    intro str
    rw [core_str_outer_loop, ih, core_str_inner_append]
    cases printable <;> simp [str_append, str_of]

/-- C17: the rendering of a value is what `core_str_inner` appends, whatever
the text before it, and it is defined by recursion: Nil is `nil`, a Bool is
`true` or `false`, an Int is its decimal text (a minus sign for a negative
number, then the decimal digits of the magnitude), a String and a Symbol
are their content, and a List is `(`, the renderings of its elements with
one space between two neighbours, and `)`, so the empty List is `()`.  It is
what `str` gives on the value as its only argument. -/
theorem core_str_inner_render (pr : Printer) :
    (∀ (str : List Nat) (v : Value), core_str_inner pr str v = str ++ str_of pr v) ∧
    str_of pr .nil = [110, 105, 108] ∧
    str_of pr (.bool true) = [116, 114, 117, 101] ∧
    str_of pr (.bool false) = [102, 97, 108, 115, 101] ∧
    (∀ i : Int, str_of pr (.int i) = fmt_d i) ∧
    (∀ i : Int, 0 ≤ i → fmt_d i = fmt_u i.natAbs) ∧
    (∀ i : Int, i < 0 → fmt_d i = 45 :: fmt_u i.natAbs) ∧
    (∀ n : Nat, dec_value (fmt_u n) = n ∧ (∀ d ∈ fmt_u n, 48 ≤ d ∧ d ≤ 57) ∧ fmt_u n ≠ []) ∧
    (∀ s : List Nat, str_of pr (.string s) = s ∧ str_of pr (.symbol s) = s) ∧
    (∀ vs : List Value,
      str_of pr (.list vs) = [40] ++ List.intercalate [32] (vs.map (str_of pr)) ++ [41]) ∧
    str_of pr (.list []) = [40, 41] ∧
    str_of pr (.list [.int (-12), .list [.nil, .bool true], .symbol [120]]) =
      [40, 45, 49, 50, 32, 40, 110, 105, 108, 32, 116, 114, 117, 101, 41, 32, 120, 41] ∧
    (∀ v : Value, core_str pr (some (.list [v])) = some (.string (str_of pr v))) := by
  refine ⟨fun str v => core_str_inner_append pr v str, rfl, rfl, rfl, ?_, ?_, ?_, fmt_u_spec,
    ?_, str_of_list pr, rfl, rfl, ?_⟩
  · intro i
    simp [str_of, core_str_inner, str_append]
  · intro i hi
    simp [fmt_d, not_lt.mpr hi]
  · intro i hi
    simp [fmt_d, hi]
  · intro s
    simp [str_of, core_str_inner, str_append]
  · intro v
    simp [core_str, core_str_outer, core_str_outer_loop, str_of]

/-- Witness of C17: the decimal text of 305. -/
theorem core_str_inner_render_witness : fmt_d 305 = fmt_u 305 :=
  (core_str_inner_render ⟨fun _ => [], fun _ => [], fun _ => []⟩).2.2.2.2.2.1 305 (by decide)

/-- C18: `str` returns the renderings of its arguments one after the other
with nothing between them; `pr-str` appends a space after the rendering of
every argument, the last one too, so `(pr-str 1 2)` is `1 2 ` with a space at
the end and not `1 2`. -/
theorem core_pr_str_trailing_space (pr : Printer) :
    (∀ vs : List Value,
      core_str pr (some (.list vs)) = some (.string (vs.map (str_of pr)).flatten)) ∧
    (∀ vs : List Value,
      core_pr_str pr (some (.list vs)) =
        some (.string (vs.map (fun v => str_of pr v ++ [32])).flatten)) ∧
    core_pr_str pr (some (.list [.int 1, .int 2])) = some (.string [49, 32, 50, 32]) ∧
    List.intercalate [32] [str_of pr (.int 1), str_of pr (.int 2)] = [49, 32, 50] := by
  refine ⟨?_, ?_, rfl, rfl⟩
  · intro vs
    simp [core_str, core_str_outer, core_str_outer_loop_append]
  · intro vs
    simp [core_pr_str, core_str_outer, core_str_outer_loop_append]

/-! ## What the rendering tells apart (C19) -/

/-- Two words followed by delimiters agree when the whole texts agree. -/
theorem word_split (a : List Nat) : ∀ (b s t : List Nat), is_word a → is_word b →
    delim_start s → delim_start t → a ++ s = b ++ t → a = b ∧ s = t := by
  induction a with
  | nil =>
    intro b s t _ hb hs _ h
    cases b with
    | nil => exact ⟨rfl, by simpa using h⟩
    | cons d b =>
      simp only [List.nil_append, List.cons_append] at h
      subst h
      have hd := hb d (by simp)
      simp only [delim_start] at hs
      omega
  | cons c a ih =>
    intro b s t ha hb hs ht h
    cases b with
    | nil =>
      simp only [List.nil_append, List.cons_append] at h
      subst h
      have hc := ha c (by simp)
      simp only [delim_start] at ht
      omega
    | cons d b =>
      simp only [List.cons_append, List.cons.injEq] at h
      obtain ⟨hcd, hrest⟩ := h
      obtain ⟨hab, hst⟩ := ih b s t (fun x hx => ha x (by simp [hx]))
        (fun x hx => hb x (by simp [hx])) hs ht hrest
      exact ⟨by rw [hcd, hab], hst⟩

theorem fmt_u_inj (a b : Nat) (h : fmt_u a = fmt_u b) : a = b := by
  have ha := (fmt_u_spec a).1
  have hb := (fmt_u_spec b).1
  rw [h] at ha
  omega

theorem fmt_u_head (n : Nat) : ∃ (c : Nat) (rest : List Nat),
    fmt_u n = c :: rest ∧ 48 ≤ c ∧ c ≤ 57 := by
  obtain ⟨_, hdig, hne⟩ := fmt_u_spec n
  cases h : fmt_u n with
  | nil => exact (hne h).elim
  | cons c rest =>
    have := hdig c (by simp [h])
    exact ⟨c, rest, rfl, this.1, this.2⟩

theorem fmt_d_inj (i j : Int) (h : fmt_d i = fmt_d j) : i = j := by
  obtain ⟨c, rest, hc, hc1, hc2⟩ := fmt_u_head i.natAbs
  obtain ⟨d, rest2, hd, hd1, hd2⟩ := fmt_u_head j.natAbs
  simp only [fmt_d] at h
  by_cases hi : i < 0 <;> by_cases hj : j < 0
  · simp only [hi, hj, if_true, List.cons.injEq, true_and] at h
    have := fmt_u_inj _ _ h
    omega
  · simp only [hi, hj, if_true, if_false, hd, List.cons.injEq] at h
    omega
  · simp only [hi, hj, if_true, if_false, hc, List.cons.injEq] at h
    omega
  · simp only [hi, hj, if_false] at h
    have := fmt_u_inj _ _ h
    omega

theorem fmt_d_head (i : Int) : ∃ (c : Nat) (rest : List Nat),
    fmt_d i = c :: rest ∧ (c = 45 ∨ (48 ≤ c ∧ c ≤ 57)) := by
  obtain ⟨c, rest, hc, hc1, hc2⟩ := fmt_u_head i.natAbs
  by_cases hi : i < 0
  · exact ⟨45, fmt_u i.natAbs, by simp [fmt_d, hi], Or.inl rfl⟩
  · exact ⟨c, rest, by simp [fmt_d, hi, hc], Or.inr ⟨hc1, hc2⟩⟩

theorem fmt_d_word (i : Int) : is_word (fmt_d i) := by
  intro c hc
  have hdig := (fmt_u_spec i.natAbs).2.1
  by_cases hi : i < 0
  · simp only [fmt_d, hi, if_true, List.mem_cons] at hc
    rcases hc with rfl | hc
    · omega
    · have := hdig c hc
      omega
  · simp only [fmt_d, hi, if_false] at hc
    have := hdig c hc
    omega

theorem plain_cases (v : Value) (h : plain v = true) :
    is_atom v = true ∨ ∃ l : List Value, v = .list l ∧ plain_list l = true := by
  cases v <;> simp [plain] at h <;> simp [is_atom]
  exact h

theorem atom_str_of (pr : Printer) (v : Value) (h : is_atom v = true) :
    is_word (str_of pr v) ∧
      ∃ (c : Nat) (rest : List Nat), str_of pr v = c :: rest ∧ c ≠ 32 ∧ c ≠ 40 ∧ c ≠ 41 := by
  cases v <;> simp [is_atom] at h
  case nil =>
    refine ⟨?_, 110, [105, 108], rfl, by decide, by decide, by decide⟩
    intro c hc
    have hc2 : c ∈ [110, 105, 108] := hc
    simp only [List.mem_cons, List.mem_singleton, List.not_mem_nil, or_false] at hc2
    omega
  case bool b =>
    cases b
    · refine ⟨?_, 102, [97, 108, 115, 101], rfl, by decide, by decide, by decide⟩
      intro c hc
      have hc2 : c ∈ [102, 97, 108, 115, 101] := hc
      simp only [List.mem_cons, List.mem_singleton, List.not_mem_nil, or_false] at hc2
      omega
    · refine ⟨?_, 116, [114, 117, 101], rfl, by decide, by decide, by decide⟩
      intro c hc
      have hc2 : c ∈ [116, 114, 117, 101] := hc
      simp only [List.mem_cons, List.mem_singleton, List.not_mem_nil, or_false] at hc2
      omega
  case int i =>
    have hs : str_of pr (.int i) = fmt_d i := by simp [str_of, core_str_inner, str_append]
    rw [hs]
    obtain ⟨c, rest, hc, hcv⟩ := fmt_d_head i
    exact ⟨fmt_d_word i, c, rest, hc, by omega, by omega, by omega⟩

theorem atom_inj (pr : Printer) (v w : Value) (hv : is_atom v = true) (hw : is_atom w = true)
    (h : str_of pr v = str_of pr w) : v = w := by
  have hint : ∀ i : Int, str_of pr (.int i) = fmt_d i := by
    intro i
    simp [str_of, core_str_inner, str_append]
  have hnil : str_of pr .nil = [110, 105, 108] := rfl
  have htrue : str_of pr (.bool true) = [116, 114, 117, 101] := rfl
  have hfalse : str_of pr (.bool false) = [102, 97, 108, 115, 101] := rfl
  cases v <;> simp [is_atom] at hv <;> cases w <;> simp [is_atom] at hw
  case nil.nil => rfl
  case nil.bool b => cases b <;> simp [hnil, htrue, hfalse] at h
  case nil.int i =>
    obtain ⟨c, rest, hc, hcv⟩ := fmt_d_head i
    rw [hnil, hint, hc] at h
    simp only [List.cons.injEq] at h
    omega
  case bool.nil b => cases b <;> simp [hnil, htrue, hfalse] at h
  case bool.bool a b => cases a <;> cases b <;> simp [htrue, hfalse] at h ⊢
  case bool.int b i =>
    obtain ⟨c, rest, hc, hcv⟩ := fmt_d_head i
    cases b
    · rw [hfalse, hint, hc] at h
      simp only [List.cons.injEq] at h
      omega
    · rw [htrue, hint, hc] at h
      simp only [List.cons.injEq] at h
      omega
  case int.nil i =>
    obtain ⟨c, rest, hc, hcv⟩ := fmt_d_head i
    rw [hnil, hint, hc] at h
    simp only [List.cons.injEq] at h
    omega
  case int.bool i b =>
    obtain ⟨c, rest, hc, hcv⟩ := fmt_d_head i
    cases b
    · rw [hfalse, hint, hc] at h
      simp only [List.cons.injEq] at h
      omega
    · rw [htrue, hint, hc] at h
      simp only [List.cons.injEq] at h
      omega
  case int.int i j =>
    rw [hint, hint] at h
    rw [fmt_d_inj i j h]

theorem str_of_list_cons (pr : Printer) (l : List Value) :
    str_of pr (.list l) = 40 :: (str_items pr l ++ [41]) := by
  rw [str_of_list]
  simp [str_items]

theorem str_items_nil (pr : Printer) : str_items pr [] = [] := rfl

theorem str_items_single (pr : Printer) (v : Value) : str_items pr [v] = str_of pr v := by
  simp [str_items, List.intercalate]

theorem str_items_cons_cons (pr : Printer) (v w : Value) (rest : List Value) :
    str_items pr (v :: w :: rest) = str_of pr v ++ 32 :: str_items pr (w :: rest) := by
  simp [str_items, List.intercalate]

/-- The rendering of a plain value starts with a byte that is neither a
space nor a closing parenthesis. -/
theorem plain_head (pr : Printer) (v : Value) (h : plain v = true) :
    ∃ (c : Nat) (rest : List Nat), str_of pr v = c :: rest ∧ c ≠ 32 ∧ c ≠ 41 := by
  rcases plain_cases v h with ha | ⟨l, rfl, _⟩
  · obtain ⟨_, c, rest, hc, h1, _, h3⟩ := atom_str_of pr v ha
    exact ⟨c, rest, hc, h1, h3⟩
  · exact ⟨40, _, str_of_list_cons pr l, by decide, by decide⟩

/-- An atom followed by a delimiter is told apart from every plain value. -/
theorem atom_any (pr : Printer) (v : Value) (hv : is_atom v = true) (w : Value)
    (hw : plain w = true) (s t : List Nat) (hs : delim_start s) (ht : delim_start t)
    (h : str_of pr v ++ s = str_of pr w ++ t) : v = w ∧ s = t := by
  obtain ⟨hword, c, rest, hc, _, h40, _⟩ := atom_str_of pr v hv
  rcases plain_cases w hw with ha | ⟨l, rfl, _⟩
  · obtain ⟨hword2, _⟩ := atom_str_of pr w ha
    obtain ⟨heq, hst⟩ := word_split _ _ s t hword hword2 hs ht h
    exact ⟨atom_inj pr v w hv ha heq, hst⟩
  · rw [hc, str_of_list_cons] at h
    simp only [List.cons_append, List.cons.injEq] at h
    exact (h40 h.1).elim

mutual
/-- Two plain values whose renderings, each followed by a delimiter, make
the same text are the same value, and so is what follows them. -/
theorem str_of_inj_aux (pr : Printer) : ∀ (v : Value), plain v = true →
    ∀ (w : Value) (s t : List Nat), plain w = true → delim_start s → delim_start t →
      str_of pr v ++ s = str_of pr w ++ t → v = w ∧ s = t
  | .nil, _, w, s, t, hw, hs, ht, h => atom_any pr .nil rfl w hw s t hs ht h
  | .bool b, _, w, s, t, hw, hs, ht, h => atom_any pr (.bool b) rfl w hw s t hs ht h
  | .int i, _, w, s, t, hw, hs, ht, h => atom_any pr (.int i) rfl w hw s t hs ht h
  | .list vs, hv, w, s, t, hw, _, _, h => by
    have ih := str_items_inj_aux pr vs (by simpa [plain] using hv)
    rcases plain_cases w hw with ha | ⟨ws, rfl, hws⟩
    · obtain ⟨_, c, rest, hc, _, h40, _⟩ := atom_str_of pr w ha
      rw [hc, str_of_list_cons] at h
      simp only [List.cons_append, List.cons.injEq] at h
      exact (h40 h.1.symm).elim
    · rw [str_of_list_cons, str_of_list_cons] at h
      simp only [List.cons_append, List.cons.injEq, true_and, List.append_assoc,
        List.singleton_append] at h
      obtain ⟨h1, h2⟩ := ih ws s t hws h
      exact ⟨by rw [h1], h2⟩
  | .float _, hv, _, _, _, _, _, _, _ => by simp [plain] at hv
  | .string _, hv, _, _, _, _, _, _, _ => by simp [plain] at hv
  | .symbol _, hv, _, _, _, _, _, _, _ => by simp [plain] at hv
  | .error _, hv, _, _, _, _, _, _, _ => by simp [plain] at hv
  | .builtin_fn _, hv, _, _, _, _, _, _, _ => by simp [plain] at hv
  | .fn _, hv, _, _, _, _, _, _, _ => by simp [plain] at hv
  | .macro_fn _, hv, _, _, _, _, _, _, _ => by simp [plain] at hv
/-- Two lists of plain values whose element renderings, each closed by a
parenthesis, make the same text are the same list. -/
theorem str_items_inj_aux (pr : Printer) : ∀ (vs : List Value), plain_list vs = true →
    ∀ (ws : List Value) (s t : List Nat), plain_list ws = true →
      str_items pr vs ++ 41 :: s = str_items pr ws ++ 41 :: t → vs = ws ∧ s = t
  | [], _, ws, s, t, hws, h => by
    cases ws with
    | nil => simpa [str_items_nil] using h
    | cons w ws =>
      have hw : plain w = true := by
        simp only [plain_list, Bool.and_eq_true] at hws
        exact hws.1
      obtain ⟨c, rest, hc, _, h41⟩ := plain_head pr w hw
      cases ws with
      | nil =>
        rw [str_items_nil, str_items_single, hc] at h
        simp only [List.nil_append, List.cons_append, List.cons.injEq] at h
        exact (h41 h.1.symm).elim
      | cons w2 ws =>
        rw [str_items_nil, str_items_cons_cons, hc] at h
        simp only [List.nil_append, List.cons_append, List.cons.injEq] at h
        exact (h41 h.1.symm).elim
  | v :: vs, hvs, ws, s, t, hws, h => by
    have hv : plain v = true := by
      simp only [plain_list, Bool.and_eq_true] at hvs
      exact hvs.1
    have hvs2 : plain_list vs = true := by
      simp only [plain_list, Bool.and_eq_true] at hvs
      exact hvs.2
    have ihv := str_of_inj_aux pr v hv
    have ihs := str_items_inj_aux pr vs hvs2
    obtain ⟨c, rest, hc, _, h41⟩ := plain_head pr v hv
    cases ws with
    | nil =>
      cases vs with
      | nil =>
        rw [str_items_nil, str_items_single, hc] at h
        simp only [List.nil_append, List.cons_append, List.cons.injEq] at h
        exact (h41 h.1).elim
      | cons v2 vs =>
        rw [str_items_nil, str_items_cons_cons, hc] at h
        simp only [List.nil_append, List.cons_append, List.cons.injEq] at h
        exact (h41 h.1).elim
    | cons w ws =>
      have hw : plain w = true := by
        simp only [plain_list, Bool.and_eq_true] at hws
        exact hws.1
      have hws2 : plain_list ws = true := by
        simp only [plain_list, Bool.and_eq_true] at hws
        exact hws.2
      cases vs with
      | nil =>
        cases ws with
        | nil =>
          rw [str_items_single, str_items_single] at h
          obtain ⟨h1, h2⟩ := ihv w (41 :: s) (41 :: t) hw (Or.inr rfl) (Or.inr rfl) h
          simp only [List.cons.injEq, true_and] at h2
          exact ⟨by rw [h1], h2⟩
        | cons w2 ws =>
          rw [str_items_single, str_items_cons_cons, List.append_assoc] at h
          obtain ⟨_, h2⟩ := ihv w (41 :: s) ((32 :: str_items pr (w2 :: ws)) ++ 41 :: t) hw
            (Or.inr rfl) (Or.inl rfl) h
          simp at h2
      | cons v2 vs =>
        cases ws with
        | nil =>
          rw [str_items_single, str_items_cons_cons, List.append_assoc] at h
          obtain ⟨_, h2⟩ := ihv w ((32 :: str_items pr (v2 :: vs)) ++ 41 :: s) (41 :: t) hw
            (Or.inl rfl) (Or.inr rfl) h
          simp at h2
        | cons w2 ws =>
          rw [str_items_cons_cons, str_items_cons_cons, List.append_assoc,
            List.append_assoc] at h
          obtain ⟨h1, h2⟩ := ihv w ((32 :: str_items pr (v2 :: vs)) ++ 41 :: s)
            ((32 :: str_items pr (w2 :: ws)) ++ 41 :: t) hw (Or.inl rfl) (Or.inl rfl) h
          simp only [List.cons_append, List.cons.injEq, true_and] at h2
          obtain ⟨h3, h4⟩ := ihs (w2 :: ws) s t hws2 h2
          exact ⟨by rw [h1, h3], h4⟩
end

mutual
/-- A plain value is equal to itself under `cmp_eq`. -/
theorem cmp_eq_refl_plain : ∀ (v : Value), plain v = true → cmp_eq v v = VALUE_CONST_TRUE
  | .nil, _ => by simp [cmp_eq]
  | .bool b, _ => by simp [cmp_eq, truth]
  | .int i, _ => by simp [cmp_eq, truth]
  | .list l, hv => by
    have ih := cmp_eq_loop_refl_plain l (by simpa [plain] using hv)
    rw [cmp_eq_list_def]
    by_cases h0 : l.length = 0
    · simp [h0]
    · simp [h0, ih]
  | .float _, hv => by simp [plain] at hv
  | .string _, hv => by simp [plain] at hv
  | .symbol _, hv => by simp [plain] at hv
  | .error _, hv => by simp [plain] at hv
  | .builtin_fn _, hv => by simp [plain] at hv
  | .fn _, hv => by simp [plain] at hv
  | .macro_fn _, hv => by simp [plain] at hv
/-- The element loop of `cmp_eq` on a list of plain values against itself. -/
theorem cmp_eq_loop_refl_plain : ∀ (l : List Value), plain_list l = true →
    cmp_eq_loop l l = VALUE_CONST_TRUE
  | [], _ => by simp [cmp_eq_loop]
  | v :: rest, h => by
    have hv : plain v = true := by
      simp only [plain_list, Bool.and_eq_true] at h
      exact h.1
    have hrest : plain_list rest = true := by
      simp only [plain_list, Bool.and_eq_true] at h
      exact h.2
    rw [cmp_eq_loop_cons, cmp_eq_refl_plain v hv]
    exact cmp_eq_loop_refl_plain rest hrest
end

/-- C16 (as amended): on an argument container that is `NULL` or not a List
value, every pure builtin but `str` and `pr-str` returns `NULL`, no value at
all; `str` and `pr-str` return a String, the empty one on `NULL` and the
rendering of the container on a value that is not a List. -/
theorem core_bad_container (names : ValueType → String) (pr : Printer) (args : Option Value)
    (h : ∀ l : List Value, args ≠ some (.list l)) :
    core_list args = none ∧ core_is_list args = none ∧ core_is_empty names args = none ∧
    core_count names args = .ret none ∧ core_cons names args = none ∧
    core_concat names args = none ∧
    core_add args = none ∧ core_sub args = none ∧ core_mul args = none ∧
    core_div args = none ∧
    core_eq args = none ∧ core_lt args = none ∧ core_leq args = none ∧
    core_gt args = none ∧ core_geq args = none ∧
    core_is_nil args = none ∧ core_is_true args = none ∧ core_is_false args = none ∧
    core_is_symbol args = none ∧
    (args = none → core_str pr args = some (.string []) ∧
      core_pr_str pr args = some (.string [])) ∧
    (∀ v : Value, args = some v → core_str pr args = some (.string (str_of pr v)) ∧
      core_pr_str pr args = some (.string (str_of pr v))) := by
  have hc : CHECK_ARGLIST args = none := by
    cases args with
    | none => rfl
    | some v =>
      cases v <;> simp [CHECK_ARGLIST]
      exact h _ rfl
  refine ⟨?_, ?_, ?_, ?_, ?_, ?_, ?_, ?_, ?_, ?_, ?_, ?_, ?_, ?_, ?_, ?_, ?_, ?_, ?_, ?_, ?_⟩
  all_goals try simp [core_list, core_is_list, core_is_empty, core_count, core_cons,
    core_concat, core_add, core_sub, core_mul, core_div, core_acc, core_eq, core_lt, core_leq,
    core_gt, core_geq, compare, core_is_nil, core_is_true, core_is_false, core_is_symbol, hc]
  · intro hn
    subst hn
    exact ⟨rfl, rfl⟩
  · intro v hv
    subst hv
    cases v <;> simp [core_str, core_pr_str, core_str_outer, str_of]
    exact (h _ rfl).elim

/-- Witness of C16: the Int 5 as the argument container of `list`. -/
theorem core_bad_container_witness : core_list (some (.int 5)) = none :=
  (core_bad_container (fun _ => "") null_printer (some (.int 5)) (by simp)).1

/-- Counterexample to C16: with the Int 5 as argument container `list`
returns `NULL` and `str` returns the String `5`; neither is an Error value. -/
theorem core_bad_container_no_error :
    core_list (some (.int 5)) = none ∧
    is_error_ptr (core_list (some (.int 5))) = false ∧
    core_str null_printer (some (.int 5)) = some (.string [53]) ∧
    is_error_ptr (core_str null_printer (some (.int 5))) = false ∧
    core_str null_printer none = some (.string []) := by
  exact ⟨rfl, rfl, rfl, rfl, rfl⟩

/-! ## IR lowering (C20) -/

theorem LocValue.values_eq_map {Loc : Type} (l : List (LocValue Loc)) :
    LocValue.values l = l.map LocValue.value := by
  induction l with
  | nil => simp [LocValue.values]
  | cons v rest ih => simp [LocValue.values, ih]

/-- The lowering of a list node is the list of the lowerings of its
children, tagged with the location of the ending empty list node. -/
theorem ir_from_ast_list_children {Loc : Type} : ∀ l : AstList Loc,
    ir_from_ast_list l =
      .list (AstList.terminator l) ((AstList.children l).map ir_from_ast_sexpr)
  | .empty loc => by simp [ir_from_ast_list, AstList.terminator, AstList.children]
  | .compound loc sexpr list => by
    have ih := ir_from_ast_list_children list
    rw [ir_from_ast_list, ih]
    simp [AstList.terminator, AstList.children]

/-- C20: a list node with the children `c1 .. cn` lowers to a List value of
`n` elements, the `i`-th being the lowering of `ci`, with and without the
locations; the empty list node lowers to the empty List value tagged with
the location of that node; an expression node that holds a list node lowers
as that list node. -/
theorem ir_from_ast_list_spec {Loc : Type} (l : AstList Loc) :
    (∃ loc : Loc, ir_from_ast_list l = .list loc ((AstList.children l).map ir_from_ast_sexpr)) ∧
    (∀ (loc : Loc) (items : List (LocValue Loc)), ir_from_ast_list l = .list loc items →
      items.length = (AstList.children l).length ∧
      ∀ (i : Nat) (c : AstSexpr Loc), (AstList.children l)[i]? = some c →
        items[i]? = some (ir_from_ast_sexpr c)) ∧
    (ir_from_ast_list l).value =
      .list ((AstList.children l).map (fun c => (ir_from_ast_sexpr c).value)) ∧
    (∀ loc : Loc, ir_from_ast_list (.empty loc) = .list loc []) ∧
    (∀ loc : Loc, ir_from_ast_sexpr (.list loc l) = ir_from_ast_list l) ∧
    (∀ loc : Loc, ir_from_ast (some (.list loc l)) = some (ir_from_ast_list l)) := by
  refine ⟨⟨_, ir_from_ast_list_children l⟩, ?_, ?_, ?_, ?_, ?_⟩
  · intro loc items h
    rw [ir_from_ast_list_children] at h
    simp only [LocValue.list.injEq] at h
    obtain ⟨_, hitems⟩ := h
    subst hitems
    refine ⟨by simp, ?_⟩
    intro i c hc
    simp [hc]
  · rw [ir_from_ast_list_children]
    simp [LocValue.value, LocValue.values_eq_map]
  · intro loc
    simp [ir_from_ast_list]
  · intro loc
    simp [ir_from_ast_sexpr]
  · intro loc
    simp [ir_from_ast, ir_from_ast_sexpr]

/-- Witness of C20: the list node of the atoms `1` and `x`. -/
theorem ir_from_ast_list_spec_witness :
    [LocValue.int 1 1, LocValue.symbol 2 [120]].length = 2 ∧
      ∀ (i : Nat) (c : AstSexpr Nat),
        (AstList.children (AstList.compound 10 (.atom 1 (.int 1 1))
          (.compound 11 (.atom 2 (.symbol 2 [120])) (.empty 12))))[i]? = some c →
        [LocValue.int 1 1, LocValue.symbol 2 [120]][i]? = some (ir_from_ast_sexpr c) :=
  (ir_from_ast_list_spec (AstList.compound 10 (.atom 1 (.int 1 1))
    (.compound 11 (.atom 2 (.symbol 2 [120])) (.empty 12)))).2.1 12
    [LocValue.int 1 1, LocValue.symbol 2 [120]] rfl

/-! ## Lowering of the quoting forms (C21) -/

/-- C21: each quoting node around an expression `e` lowers to a List value
of two elements, the Symbol `quote`, `quasiquote`, `unquote` or
`splice-unquote` and the lowering of `e`; the List carries the location of
the quoting node. -/
theorem ir_from_ast_quoting {Loc : Type} (loc : Loc) (e : AstSexpr Loc) :
    ir_from_ast_sexpr (.quote loc e) =
      .list loc [.symbol loc [113, 117, 111, 116, 101], ir_from_ast_sexpr e] ∧
    ir_from_ast_sexpr (.quasiquote loc e) =
      .list loc [.symbol loc [113, 117, 97, 115, 105, 113, 117, 111, 116, 101],
        ir_from_ast_sexpr e] ∧
    ir_from_ast_sexpr (.unquote loc e) =
      .list loc [.symbol loc [117, 110, 113, 117, 111, 116, 101], ir_from_ast_sexpr e] ∧
    ir_from_ast_sexpr (.splice_unquote loc e) =
      .list loc [.symbol loc [115, 112, 108, 105, 99, 101, 45, 117, 110, 113, 117, 111, 116, 101],
        ir_from_ast_sexpr e] ∧
    (ir_from_ast_sexpr (.quote loc e)).loc = loc ∧
    (ir_from_ast_sexpr (.quasiquote loc e)).loc = loc ∧
    (ir_from_ast_sexpr (.unquote loc e)).loc = loc ∧
    (ir_from_ast_sexpr (.splice_unquote loc e)).loc = loc ∧
    (ir_from_ast_sexpr (.quote loc e)).value =
      .list [.symbol [113, 117, 111, 116, 101], (ir_from_ast_sexpr e).value] ∧
    (ir_from_ast_sexpr (.quasiquote loc e)).value =
      .list [.symbol [113, 117, 97, 115, 105, 113, 117, 111, 116, 101],
        (ir_from_ast_sexpr e).value] ∧
    (ir_from_ast_sexpr (.unquote loc e)).value =
      .list [.symbol [117, 110, 113, 117, 111, 116, 101], (ir_from_ast_sexpr e).value] ∧
    (ir_from_ast_sexpr (.splice_unquote loc e)).value =
      .list [.symbol [115, 112, 108, 105, 99, 101, 45, 117, 110, 113, 117, 111, 116, 101],
        (ir_from_ast_sexpr e).value] ∧
    [113, 117, 111, 116, 101] = "quote".toList.map Char.toNat ∧
    [113, 117, 97, 115, 105, 113, 117, 111, 116, 101] = "quasiquote".toList.map Char.toNat ∧
    [117, 110, 113, 117, 111, 116, 101] = "unquote".toList.map Char.toNat ∧
    [115, 112, 108, 105, 99, 101, 45, 117, 110, 113, 117, 111, 116, 101] =
      "splice-unquote".toList.map Char.toNat := by
  refine ⟨?_, ?_, ?_, ?_, ?_, ?_, ?_, ?_, ?_, ?_, ?_, ?_, by decide, by decide, by decide,
    by decide⟩ <;>
    simp [ir_from_ast_sexpr, ir_quoted, LocValue.loc, LocValue.value, LocValue.values]

/-! ## Relations between the pairwise comparisons (C22 to C24) -/

theorem strcmp_swap (a : List Nat) : ∀ b : List Nat, strcmp b a = -strcmp a b := by
  induction a with
  | nil =>
    intro b
    cases b with
    | nil => simp [strcmp]
    | cons d b => simp [strcmp]
  | cons c a ih =>
    intro b
    cases b with
    | nil => simp [strcmp]
    | cons d b =>
      rw [strcmp_cons_cons, strcmp_cons_cons]
      by_cases hcd : c = d
      · subst hcd
        by_cases h0 : c = 0
        · simp [h0]
        · simp [h0, ih b]
      · have hdc : ¬ d = c := fun h => hcd h.symm
        simp [hcd, hdc]

theorem CFloat.lt_swap (a b : CFloat) : CFloat.gt a b = CFloat.lt b a := rfl

theorem CFloat.le_swap (a b : CFloat) : CFloat.ge a b = CFloat.le b a := rfl

theorem CFloat.eq_comm (a b : CFloat) : CFloat.eq a b = CFloat.eq b a := by
  cases a <;> cases b <;> simp [CFloat.eq, min_comm, Bool.beq_comm]

theorem strcmp_pos_swap (s t : List Nat) : 0 < strcmp s t ↔ strcmp t s < 0 := by
  rw [strcmp_swap s t]
  omega

theorem strcmp_nonneg_swap (s t : List Nat) : 0 ≤ strcmp s t ↔ strcmp t s ≤ 0 := by
  rw [strcmp_swap s t]
  omega

theorem strcmp_zero_swap (s t : List Nat) : strcmp s t = 0 ↔ strcmp t s = 0 := by
  rw [strcmp_swap s t]
  omega

/-- C22: for all values `a` and `b`, `>` of `(a, b)` is the result of `<` of
`(b, a)`, and `>=` of `(a, b)` is the result of `<=` of `(b, a)`: the same
True or False, or an Error with the same message; so it is for an Int
against a Float. -/
theorem cmp_order_mirror (a b : Value) :
    cmp_gt a b = cmp_lt b a ∧ cmp_geq a b = cmp_leq b a ∧
    (∀ (i : Int) (f : CFloat),
      cmp_gt (.int i) (.float f) = cmp_lt (.float f) (.int i) ∧
      cmp_gt (.float f) (.int i) = cmp_lt (.int i) (.float f) ∧
      cmp_geq (.int i) (.float f) = cmp_leq (.float f) (.int i) ∧
      cmp_geq (.float f) (.int i) = cmp_leq (.int i) (.float f)) := by
  refine ⟨?_, ?_, ?_⟩
  · cases a <;> cases b <;>
      simp [cmp_gt, cmp_lt, CFloat.lt_swap, strcmp_pos_swap, gt_iff_lt]
  · cases a <;> cases b <;>
      simp [cmp_geq, cmp_leq, CFloat.le_swap, strcmp_nonneg_swap, ge_iff_le]
  · intro i f
    simp [cmp_gt, cmp_lt, cmp_geq, cmp_leq, CFloat.lt_swap, CFloat.le_swap]

mutual
/-- The equality `cmp_eq` gives the same result on a pair and on the
swapped pair. -/
theorem cmp_eq_swap : ∀ (a b : Value), cmp_eq a b = cmp_eq b a
  | .nil, b => by cases b <;> simp [cmp_eq]
  | .bool x, b => by cases b <;> simp [cmp_eq, Bool.beq_comm]
  | .int i, b => by cases b <;> simp [cmp_eq, eq_comm]
  | .float f, b => by cases b <;> simp [cmp_eq, CFloat.eq_comm]
  | .string s, b => by
    cases b <;> simp [cmp_eq]
    exact congrArg truth (decide_eq_decide.mpr (strcmp_zero_swap s _))
  | .symbol s, b => by
    cases b <;> simp [cmp_eq]
    exact congrArg truth (decide_eq_decide.mpr (strcmp_zero_swap s _))
  | .error m, b => by cases b <;> simp [cmp_eq]
  | .builtin_fn p, b => by cases b <;> simp [cmp_eq, eq_comm]
  | .fn p, b => by cases b <;> simp [cmp_eq, eq_comm]
  | .macro_fn p, b => by cases b <;> simp [cmp_eq, eq_comm]
  | .list as, b => by
    cases b with
    | list bs =>
      have ih := cmp_eq_loop_swap as bs
      rw [cmp_eq_list_def, cmp_eq_list_def]
      by_cases hlen : as.length = bs.length
      · rw [if_pos hlen, if_pos hlen.symm, ih, hlen]
      · have hlen2 : ¬ bs.length = as.length := fun h => hlen h.symm
        rw [if_neg hlen, if_neg hlen2]
    | _ => simp [cmp_eq]
/-- The element loop of `cmp_eq` gives the same result on two lists and on
the swapped lists. -/
theorem cmp_eq_loop_swap : ∀ (as bs : List Value), cmp_eq_loop as bs = cmp_eq_loop bs as
  | [], bs => by cases bs <;> simp [cmp_eq_loop]
  | a :: as, bs => by
    cases bs with
    | nil => simp [cmp_eq_loop]
    | cons b bs =>
      rw [cmp_eq_loop_cons, cmp_eq_loop_cons, cmp_eq_swap a b, cmp_eq_loop_swap as bs]
end

/-- C23: for all values `a` and `b`, `=` of `(a, b)` is the result of `=` of
`(b, a)`: both True, both False, or both an Error with the same message; so
it is for an Int against a Float and for nested Lists. -/
theorem cmp_eq_symmetric (a b : Value) :
    cmp_eq a b = cmp_eq b a ∧
    (∀ (i : Int) (f : CFloat), cmp_eq (.int i) (.float f) = cmp_eq (.float f) (.int i)) ∧
    (∀ as bs : List Value, cmp_eq (.list as) (.list bs) = cmp_eq (.list bs) (.list as)) ∧
    cmp_eq (.list [.int 1, .list [.float (.fin false 8388608 (-22)), .nil]])
        (.list [.float (.fin false 8388608 (-23)), .list [.int 2, .bool true]]) =
      .error "Cannot compare incompatible types" ∧
    cmp_eq (.list [.float (.fin false 8388608 (-23)), .list [.int 2, .bool true]])
        (.list [.int 1, .list [.float (.fin false 8388608 (-22)), .nil]]) =
      .error "Cannot compare incompatible types" := by
  exact ⟨cmp_eq_swap a b, fun i f => cmp_eq_swap _ _, fun as bs => cmp_eq_swap _ _, rfl, rfl⟩

theorem truth_eq_true (p : Prop) [Decidable p] :
    truth (decide p) = VALUE_CONST_TRUE ↔ p := by
  by_cases h : p <;> simp [truth, h]

/-- C24: for two Ints, two Strings or two Symbols `a` and `b`, `<=` of
`(a, b)` is True exactly when `<` or `=` of `(a, b)` is True, and exactly one
of `<`, `=` and `>` of `(a, b)` is True. -/
theorem cmp_trichotomy (a b : Value) (h : same_scalar_kind a b = true) :
    (cmp_leq a b = VALUE_CONST_TRUE ↔
      cmp_lt a b = VALUE_CONST_TRUE ∨ cmp_eq a b = VALUE_CONST_TRUE) ∧
    exactly_one (cmp_lt a b = VALUE_CONST_TRUE) (cmp_eq a b = VALUE_CONST_TRUE)
      (cmp_gt a b = VALUE_CONST_TRUE) := by
  cases a <;> cases b <;> simp [same_scalar_kind] at h
  case int.int i j =>
    simp only [cmp_leq, cmp_lt, cmp_eq, cmp_gt, truth_eq_true, exactly_one]
    omega
  case string.string s t =>
    simp only [cmp_leq, cmp_lt, cmp_eq, cmp_gt, truth_eq_true, exactly_one]
    omega
  case symbol.symbol s t =>
    simp only [cmp_leq, cmp_lt, cmp_eq, cmp_gt, truth_eq_true, exactly_one]
    omega

/-- Witness of C24: the Strings `ab` and `b`. -/
theorem cmp_trichotomy_witness :
    (cmp_leq (.string [97, 98]) (.string [98]) = VALUE_CONST_TRUE ↔
      cmp_lt (.string [97, 98]) (.string [98]) = VALUE_CONST_TRUE ∨
        cmp_eq (.string [97, 98]) (.string [98]) = VALUE_CONST_TRUE) ∧
    exactly_one (cmp_lt (.string [97, 98]) (.string [98]) = VALUE_CONST_TRUE)
      (cmp_eq (.string [97, 98]) (.string [98]) = VALUE_CONST_TRUE)
      (cmp_gt (.string [97, 98]) (.string [98]) = VALUE_CONST_TRUE) :=
  cmp_trichotomy (.string [97, 98]) (.string [98]) rfl

end Stutter
